import Mathlib

/-!
Verification of the filename-to-media-metadata resolution engine of
`move2jelly` (src/move2jelly/src/index.ts).

The TypeScript source is shallowly embedded below.  Strings are modelled as
Lean `String`s (lists of Unicode scalar values), which matches the JS string
model for all code points used by the program (the source never splits
surrogate pairs).  Each JS regular expression used by the source is embedded
as an explicit scanning matcher with JS `match` semantics: leftmost match
wins, quantifiers are greedy with backtracking.  The remote TMDB catalog is
modelled as a record of pure query functions, and the filesystem as an
explicit world state plus a trace of performed operations.
-/

namespace Move2Jelly

/-! ### Character classes

The JS character classes used by the source, defined on code points.
`jsWhite` models the JS `\s` class (and `String.prototype.trim`) on the
characters that can actually occur here: ASCII whitespace and NBSP
(NBSP matters because the Windows-1252 decode step can produce it). -/

def jsWhite (c : Char) : Bool :=
  c.toNat == 32 || c.toNat == 9 || c.toNat == 10 || c.toNat == 11 ||
  c.toNat == 12 || c.toNat == 13 || c.toNat == 160

/-- JS `\d`: ASCII digits. -/
def isDig (c : Char) : Bool :=
  48 ≤ c.toNat && c.toNat ≤ 57

/-- JS `\w`: ASCII letters, digits and underscore. -/
def isWordC (c : Char) : Bool :=
  (97 ≤ c.toNat && c.toNat ≤ 122) || (65 ≤ c.toNat && c.toNat ≤ 90) ||
  isDig c || c == '_'

/-- ASCII lowercase letters and digits, the alphabet of `simplify` output. -/
def isLowerAlnum (c : Char) : Bool :=
  (97 ≤ c.toNat && c.toNat ≤ 122) || isDig c

/-! ### Small string helpers (JS built-ins used by the source) -/

/-- JS `String.prototype.trim` on a char list (both ends). -/
def trimChars (l : List Char) : List Char :=
  ((l.dropWhile jsWhite).reverse.dropWhile jsWhite).reverse

/-- JS `String.prototype.trim`. -/
def jsTrim (s : String) : String :=
  String.mk (trimChars s.data)

/-- `a.startsWith b` on char lists (JS `String.prototype.startsWith`). -/
def strBegins : List Char → List Char → Bool
  | _, [] => true
  | [], _ :: _ => false
  | c :: cs, d :: ds => c == d && strBegins cs ds

/-- JS `String(n)` / template-literal stringification of a natural number,
with a fuel argument so that the definition is structurally recursive
(fuel `n + 1` always suffices). -/
def natDigitsAux : Nat → Nat → List Char
  | 0, _ => []
  | f + 1, n =>
    if n < 10 then [Char.ofNat (48 + n)]
    else natDigitsAux f (n / 10) ++ [Char.ofNat (48 + n % 10)]

def natToStr (n : Nat) : String :=
  String.mk (natDigitsAux (n + 1) n)

/-- JS `parseInt(s, 10)` on a string of ASCII digits. -/
def toNatDigits (l : List Char) : Nat :=
  l.foldl (fun a c => a * 10 + (c.toNat - 48)) 0

/-- JS `String(n).padStart(2, '0')`. -/
def pad2 (n : Nat) : String :=
  let s := natToStr n
  if s.length ≥ 2 then s else "0" ++ s

/-- JS `String.prototype.toLocaleLowerCase`, modelled on the ASCII and
Latin-1 letter repertoire (the repertoire the Windows-1252 pipeline can
produce); other code points are left unchanged. -/
def toLowerChar (c : Char) : Char :=
  if 65 ≤ c.toNat ∧ c.toNat ≤ 90 then Char.ofNat (c.toNat + 32)
  else if (192 ≤ c.toNat ∧ c.toNat ≤ 222) ∧ c.toNat ≠ 215 then Char.ofNat (c.toNat + 32)
  else c

def jsToLower (s : String) : String :=
  String.mk (s.data.map toLowerChar)

/-- `path.join(a, b)` for the POSIX paths constructed by the program. -/
def pathJoin (a b : String) : String :=
  a ++ "/" ++ b

/-! ### The normalize step (lines 146-147 / 364-365)

`iconv.decode(Buffer.from(filename, binary), win1252)`: every UTF-16
code unit is truncated to a byte (`& 0xFF`) and the byte is decoded with
the Windows-1252 table.  The table maps bytes 0x80-0x9F to specific
Unicode code points (iconv-lite maps the five undefined bytes to the
C1 control of the same value) and every other byte to itself. -/

def win1252Special (b : Nat) : Char :=
  if b == 0x80 then Char.ofNat 0x20AC
  else if b == 0x82 then Char.ofNat 0x201A
  else if b == 0x83 then Char.ofNat 0x0192
  else if b == 0x84 then Char.ofNat 0x201E
  else if b == 0x85 then Char.ofNat 0x2026
  else if b == 0x86 then Char.ofNat 0x2020
  else if b == 0x87 then Char.ofNat 0x2021
  else if b == 0x88 then Char.ofNat 0x02C6
  else if b == 0x89 then Char.ofNat 0x2030
  else if b == 0x8A then Char.ofNat 0x0160
  else if b == 0x8B then Char.ofNat 0x2039
  else if b == 0x8C then Char.ofNat 0x0152
  else if b == 0x8E then Char.ofNat 0x017D
  else if b == 0x91 then Char.ofNat 0x2018
  else if b == 0x92 then Char.ofNat 0x2019
  else if b == 0x93 then Char.ofNat 0x201C
  else if b == 0x94 then Char.ofNat 0x201D
  else if b == 0x95 then Char.ofNat 0x2022
  else if b == 0x96 then Char.ofNat 0x2013
  else if b == 0x97 then Char.ofNat 0x2014
  else if b == 0x98 then Char.ofNat 0x02DC
  else if b == 0x99 then Char.ofNat 0x2122
  else if b == 0x9A then Char.ofNat 0x0161
  else if b == 0x9B then Char.ofNat 0x203A
  else if b == 0x9C then Char.ofNat 0x0153
  else if b == 0x9E then Char.ofNat 0x017E
  else if b == 0x9F then Char.ofNat 0x0178
  else Char.ofNat b

def normChar (c : Char) : Char :=
  let b := c.toNat % 256
  if 0x80 ≤ b ∧ b ≤ 0x9F then win1252Special b
  else if b = c.toNat then c else Char.ofNat b

/-- The normalize step applied by both parsers before anything else. -/
def normalize (s : String) : String :=
  String.mk (s.data.map normChar)

/-- Already-correct text for the Windows-1252 pipeline: every character is
representable in Latin-1 and is not a C1 control (i.e. ASCII or 0xA0-0xFF).
Re-decoding such text is a no-op. -/
def alreadyCorrect (s : String) : Bool :=
  s.data.all fun c => c.toNat < 256 && !(0x80 ≤ c.toNat && c.toNat ≤ 0x9F)

/-! ### simplify (lines 118-125) -/

/-- Unicode canonical decomposition (NFD) of a single character, restricted
to the precomposed Latin-1 letters (the repertoire reachable through the
Windows-1252 decode and Latin lowercasing above); every other character is
its own decomposition.  Each decomposable letter splits into its base letter
followed by one combining mark in U+0300-U+036F. -/
def nfdChar (c : Char) : List Char :=
  let n := c.toNat
  let mk := fun (base mark : Nat) => [Char.ofNat base, Char.ofNat mark]
  if n < 0xC0 ∨ 0xFF < n then [c]
  else if n == 0xE0 then mk 97 0x300 else if n == 0xE1 then mk 97 0x301
  else if n == 0xE2 then mk 97 0x302 else if n == 0xE3 then mk 97 0x303
  else if n == 0xE4 then mk 97 0x308 else if n == 0xE5 then mk 97 0x30A
  else if n == 0xE7 then mk 99 0x327 else if n == 0xE8 then mk 101 0x300
  else if n == 0xE9 then mk 101 0x301 else if n == 0xEA then mk 101 0x302
  else if n == 0xEB then mk 101 0x308 else if n == 0xEC then mk 105 0x300
  else if n == 0xED then mk 105 0x301 else if n == 0xEE then mk 105 0x302
  else if n == 0xEF then mk 105 0x308 else if n == 0xF1 then mk 110 0x303
  else if n == 0xF2 then mk 111 0x300 else if n == 0xF3 then mk 111 0x301
  else if n == 0xF4 then mk 111 0x302 else if n == 0xF5 then mk 111 0x303
  else if n == 0xF6 then mk 111 0x308 else if n == 0xF9 then mk 117 0x300
  else if n == 0xFA then mk 117 0x301 else if n == 0xFB then mk 117 0x302
  else if n == 0xFC then mk 117 0x308 else if n == 0xFD then mk 121 0x301
  else if n == 0xFF then mk 121 0x308
  else if n == 0xC0 then mk 65 0x300 else if n == 0xC1 then mk 65 0x301
  else if n == 0xC2 then mk 65 0x302 else if n == 0xC3 then mk 65 0x303
  else if n == 0xC4 then mk 65 0x308 else if n == 0xC5 then mk 65 0x30A
  else if n == 0xC7 then mk 67 0x327 else if n == 0xC8 then mk 69 0x300
  else if n == 0xC9 then mk 69 0x301 else if n == 0xCA then mk 69 0x302
  else if n == 0xCB then mk 69 0x308 else if n == 0xCC then mk 73 0x300
  else if n == 0xCD then mk 73 0x301 else if n == 0xCE then mk 73 0x302
  else if n == 0xCF then mk 73 0x308 else if n == 0xD1 then mk 78 0x303
  else if n == 0xD2 then mk 79 0x300 else if n == 0xD3 then mk 79 0x301
  else if n == 0xD4 then mk 79 0x302 else if n == 0xD5 then mk 79 0x303
  else if n == 0xD6 then mk 79 0x308 else if n == 0xD9 then mk 85 0x300
  else if n == 0xDA then mk 85 0x301 else if n == 0xDB then mk 85 0x302
  else if n == 0xDC then mk 85 0x308 else if n == 0xDD then mk 89 0x301
  else [c]

/-- A combining diacritical mark, the class removed by
the global replace that deletes the combining-mark class. -/
def isCombiningMark (c : Char) : Bool :=
  0x300 ≤ c.toNat && c.toNat ≤ 0x36F

/-- `simplify` (lines 118-125): lowercase, NFD-decompose, strip combining
marks, then drop everything outside `[a-z0-9]`. -/
def simplify (s : String) : String :=
  let lowered := s.data.map toLowerChar
  let decomposed := lowered.flatMap nfdChar
  let stripped := decomposed.filter fun c => !isCombiningMark c
  String.mk (stripped.filter isLowerAlnum)

/-! ### sanitizeFilename (lines 127-131) -/

/-- `sanitizeFilename`: `/` and NUL become `-`, then `:` becomes `.`.
(The first replacement never produces a `:`, so the two global replaces
compose into one character map.) -/
def sanitizeChar (c : Char) : Char :=
  if c == '/' || c.toNat == 0 then '-'
  else if c == ':' then '.'
  else c

def sanitizeFilename (s : String) : String :=
  String.mk (s.data.map sanitizeChar)

/-! ### The extension regex `/(\.[^.\s]+)$/` (lines 149, 271-272, 330-331)

The regex matches a final `.` followed by one or more characters that are
neither `.` nor whitespace, anchored at the end: equivalently, the last `.`
of the string must have a non-empty, dot-free, whitespace-free tail after
it.  `extTail` returns that tail (the extension without the dot). -/

def extTail (s : String) : Option String :=
  let rev := s.data.reverse
  let tail := rev.takeWhile fun c => !(c == '.' || jsWhite c)
  if tail.isEmpty then none
  else match rev.drop tail.length with
    | '.' :: _ => some (String.mk tail.reverse)
    | _ => none

/-- The first replace of cleanTitle: remove the matched extension suffix. -/
def dropExt (s : String) : String :=
  match extTail s with
  | some e => String.mk (s.data.take (s.data.length - (e.length + 1)))
  | none => s

/-! ### cleanTitle (lines 133-143)

Each global `replace` with the bracket-spacing patterns is embedded as a
left-to-right scan; the scans skip past whitespace runs, so they take a fuel
argument (the list length plus one always suffices) to stay structurally
recursive. -/

/-- `.replace(/[._]/g, ' ')`. -/
def dotsToSpaces (l : List Char) : List Char :=
  l.map fun c => if c == '.' || c == '_' then ' ' else c

/-- The global replace of `\[\s*` by space-plus-bracket — a match starts at each `[` and greedily
consumes the following whitespace run. -/
def repOpenBracketAux (open1 : Char) : Nat → List Char → List Char
  | 0, l => l
  | _ + 1, [] => []
  | fuel + 1, c :: rest =>
    if c == open1 then ' ' :: c :: repOpenBracketAux open1 fuel (rest.dropWhile jsWhite)
    else c :: repOpenBracketAux open1 fuel rest

/-- The global replace of `\s*\]` by bracket-plus-space — a match starts at the beginning of the
whitespace run preceding each `]` (or at the `]` itself). -/
def repCloseBracketAux (close1 : Char) : Nat → List Char → List Char
  | 0, l => l
  | _ + 1, [] => []
  | fuel + 1, c :: rest =>
    if c == close1 then c :: ' ' :: repCloseBracketAux close1 fuel rest
    else if jsWhite c then
      match (c :: rest).dropWhile jsWhite with
      | d :: tail =>
        if d == close1 then d :: ' ' :: repCloseBracketAux close1 fuel tail
        else c :: repCloseBracketAux close1 fuel rest
      | [] => c :: repCloseBracketAux close1 fuel rest
    else c :: repCloseBracketAux close1 fuel rest

/-- `.replace(/\s+/g, ' ')`. -/
def collapseWsAux : Nat → List Char → List Char
  | 0, l => l
  | _ + 1, [] => []
  | fuel + 1, c :: rest =>
    if jsWhite c then ' ' :: collapseWsAux fuel (rest.dropWhile jsWhite)
    else c :: collapseWsAux fuel rest

/-- `cleanTitle` (lines 133-143). -/
def cleanTitle (title : String) : String :=
  let l0 := (dropExt title).data
  let l1 := dotsToSpaces l0
  let l2 := repOpenBracketAux '[' (l1.length + 1) l1
  let l3 := repCloseBracketAux ']' (l2.length + 1) l2
  let l4 := repOpenBracketAux '(' (l3.length + 1) l3
  let l5 := repCloseBracketAux ')' (l4.length + 1) l4
  let l6 := collapseWsAux (l5.length + 1) l5
  jsTrim (String.mk l6)

/-! ### Generic leftmost-match scanning

`scanFind p prev l i` models `string.match(re)` for a regex embedded as the
position matcher `p`: it tries `p` at every position from left to right
(passing the previous character, needed for `\b`), and returns the first
success together with its index. -/

def scanFind (p : Option Char → List Char → Option α) :
    Option Char → List Char → Nat → Option (Nat × α)
  | prev, [], i => (p prev []).map fun a => (i, a)
  | prev, c :: rest, i =>
    match p prev (c :: rest) with
    | some a => some (i, a)
    | none => scanFind p (some c) rest (i + 1)

/-- Run a position matcher over a whole string, JS `match` style. -/
def strFind (p : Option Char → List Char → Option α) (s : String) :
    Option (Nat × α) :=
  scanFind p none s.data 0

/-! ### The `[tmdbid-NNN]` tag regex `/\[tmdbid-(\d+)\]/i` (lines 162, 367) -/

/-- Case-insensitive character comparison against a lowercase letter. -/
def chCI (lower : Char) (c : Char) : Bool :=
  c == lower || c.toNat + 32 == lower.toNat

/-- Matcher for `\[tmdbid-(\d+)\]` (case-insensitive) at one position;
returns (match length, captured digits).  `\d+` is greedy; shortening it
would leave a digit where `]` is required, so only the maximal digit run
can succeed. -/
def tagAt (_prev : Option Char) (l : List Char) : Option (Nat × List Char) :=
  match l with
  | '[' :: r1 =>
    match r1 with
    | t :: m :: d :: b :: i :: d2 :: '-' :: r2 =>
      if chCI 't' t && chCI 'm' m && chCI 'd' d && chCI 'b' b &&
         chCI 'i' i && chCI 'd' d2 then
        let digits := r2.takeWhile isDig
        if digits.isEmpty then none
        else match r2.drop digits.length with
          | ']' :: _ => some (8 + digits.length + 1, digits)
          | _ => none
      else none
    | _ => none
  | _ => none

/-- `clean.match(/\[tmdbid-(\d+)\]/i)`: (index, match length, digits). -/
def tagFind (s : String) : Option (Nat × Nat × List Char) :=
  (strFind tagAt s).map fun (i, len, ds) => (i, len, ds)

/-! ### The year regexes (lines 175-182) -/

def isOpenBr (c : Char) : Bool := c == '(' || c == '['
def isCloseBr (c : Char) : Bool := c == ')' || c == ']'

/-- `(19|20)` followed by `\d{2}`. -/
def yearHead (a b : Char) : Bool :=
  (a == '1' && b == '9') || (a == '2' && b == '0')

/-- Matcher for `/[\(\[](19|20)\d{2}[\)\]]/` at one position; returns
(match length, the four year digits). -/
def yearBracketedAt (_prev : Option Char) (l : List Char) : Option (Nat × List Char) :=
  match l with
  | o :: a :: b :: c :: d :: cl :: _ =>
    if isOpenBr o && yearHead a b && isDig c && isDig d && isCloseBr cl then
      some (6, [a, b, c, d])
    else none
  | _ => none

/-- Matcher for `/[\(\[]\D*(19|20)\d{2}[\)\]]/` at one position.  `\D*` is
greedy and cannot consume digits, so it must end exactly at the first digit
after the bracket; no backtracking alternative exists. -/
def yearAfterTextAt (_prev : Option Char) (l : List Char) : Option (Nat × List Char) :=
  match l with
  | o :: r1 =>
    if isOpenBr o then
      match r1.drop (r1.takeWhile fun c => !isDig c).length with
      | a :: b :: c :: d :: cl :: _ =>
        if yearHead a b && isDig c && isDig d && isCloseBr cl then
          some (1 + (r1.takeWhile fun c => !isDig c).length + 5, [a, b, c, d])
        else none
      | _ => none
    else none
  | [] => none

/-- Matcher for `/(19|20)\d{2}/` at one position. -/
def yearBareAt (_prev : Option Char) (l : List Char) : Option (Nat × List Char) :=
  match l with
  | a :: b :: c :: d :: _ =>
    if yearHead a b && isDig c && isDig d then some (4, [a, b, c, d]) else none
  | _ => none

/-- The year search of `parseMovieFilename` (lines 175-183): the three
regexes are tried in source order, first match wins.  The result is
(index, match length, the digit characters of the match) — the digit
characters are exactly what the non-digit-deleting replace on `yearMatch[0]`
extracts, since each pattern contains exactly the four year digits. -/
def locateYear (s : String) : Option (Nat × Nat × List Char) :=
  match strFind yearBracketedAt s with
  | some (i, len, ds) => some (i, len, ds)
  | none =>
    match strFind yearAfterTextAt s with
    | some (i, len, ds) => some (i, len, ds)
    | none =>
      match strFind yearBareAt s with
      | some (i, len, ds) => some (i, len, ds)
      | none => none

/-! ### Catalog data model (tmdb-ts records, as used by the source) -/

structure Movie where
  id : Nat
  title : String
  release_date : String
  overview : String
  deriving Repr, DecidableEq

structure TvShow where
  id : Nat
  name : String
  first_air_date : Option String
  overview : String
  deriving Repr, DecidableEq

structure TvEpisode where
  name : String
  air_date : Option String
  deriving Repr, DecidableEq

/-- The remote catalog, modelled as pure query functions (the source awaits
each call; calls are the only suspension points and are strictly
sequential, so a pure function model is faithful for one run). -/
structure Catalog where
  movieById : Nat → Option Movie
  searchMovies : String → Option Nat → List Movie
  tvById : Nat → Option TvShow
  searchTv : String → Option Nat → List TvShow
  episodeDetails : Nat → Nat → Nat → Option TvEpisode

/-- `movie.release_date.split('-')[0]` (and likewise for air dates). -/
def beforeDash (s : String) : String :=
  String.mk (s.data.takeWhile fun c => !(c == '-'))

/-! ### Movie candidate narrowing (lines 199-213) -/

/-- The narrowing block of `parseMovieFilename`, verbatim: it only does
anything when more than one candidate arrived; the synopsis filter always
re-filters the output of the title/year filter. -/
def narrowMovies (movies : List Movie) (query yearStr : String) : List Movie :=
  if movies.length > 1 then
    let newMovies := movies.filter fun m =>
      simplify m.title == simplify query && strBegins m.release_date.data yearStr.data
    let movies1 := if newMovies.length == 1 then newMovies else movies
    let newMovies2 := newMovies.filter fun m => m.overview != ""
    if newMovies2.length == 1 then newMovies2 else movies1
  else movies

/-- Modelled from the spec (sections 4.3 / 8, the reference definition the
claim compares the code against): keep candidates whose simplified title
equals the simplified query and whose release-date string starts with the
year digits; if exactly one remains adopt it; else keep, from that filtered
set, the candidates with a non-empty synopsis; if exactly one remains adopt
it; otherwise no candidate is adopted (ambiguous). -/
def specAdoptMovie (movies : List Movie) (query yearStr : String) : Option Movie :=
  let f1 := movies.filter fun m =>
    simplify m.title == simplify query && strBegins m.release_date.data yearStr.data
  if f1.length == 1 then f1.head?
  else
    let f2 := f1.filter fun m => m.overview != ""
    if f2.length == 1 then f2.head? else none

inductive MovieResolution
  | resolved (m : Movie)
  | ambiguous (ms : List Movie)
  | notFound
  deriving Repr, DecidableEq

/-- Lines 199-242 after the candidate list is in hand: narrow, then resolve
to the single candidate, report the multiple candidates, or report none. -/
def resolveMovieList (movies : List Movie) (query yearStr : String) : MovieResolution :=
  let ms := narrowMovies movies query yearStr
  match ms with
  | [m] => .resolved m
  | [] => .notFound
  | l => .ambiguous l

def MovieResolution.isAmbiguous : MovieResolution → Bool
  | .ambiguous _ => true
  | _ => false

/-! ### Movie parsing (lines 145-243)

Phase A is the pure part before any catalog call; the trace events record
which catalog endpoints the resolution then invokes. -/

inductive ParseFail
  | NoExtension
  | NoYearFound
  deriving Repr, DecidableEq

/-- The information `parseMovieFilename` has gathered when it reaches the
catalog call: either an explicit-id lookup or a title/year search. -/
inductive MoviePre
  | byId (tmdbId : Nat) (rest : String) (extension : String)
  | srch (query : String) (year : Nat) (yearStr : String) (rest : String)
      (extension : String)
  deriving Repr, DecidableEq

/-- JS `clean.slice(i)` on our model. -/
def strDrop (s : String) (i : Nat) : String := String.mk (s.data.drop i)

/-- JS `clean.slice(0, i)` on our model. -/
def strTake (s : String) (i : Nat) : String := String.mk (s.data.take i)

/-- Lines 145-197 of `parseMovieFilename` up to (but excluding) the catalog
call: decode, extension check, cleaning, explicit-tag check, year search,
and the title/rest split. -/
def parseMoviePhaseA (filename : String) : Except ParseFail MoviePre :=
  let raw := normalize filename
  match extTail raw with
  | none => .error .NoExtension
  | some extension =>
    let clean := cleanTitle raw
    match tagFind clean with
    | some (i, len, digits) =>
      .ok (.byId (toNatDigits digits) (jsTrim (strDrop clean (i + len))) extension)
    | none =>
      match locateYear clean with
      | none => .error .NoYearFound
      | some (i, len, ds) =>
        .ok (.srch (jsTrim (strTake clean i)) (toNatDigits ds) (String.mk ds)
          (jsTrim (strDrop clean (i + len))) extension)

/-- Trace events: log lines and catalog requests (filesystem operations are
recorded separately by the placement engine below). -/
inductive Ev
  | info (msg : String)
  | errLine (msg : String)
  | warnLine (msg : String)
  | action (msg : String)
  | reqMovieById (id : Nat)
  | reqSearchMovies (query : String) (year : Option Nat)
  | reqTvById (id : Nat)
  | reqSearchTv (query : String) (year : Option Nat)
  | reqEpisode (tvId season episode : Nat)
  deriving Repr, DecidableEq

structure ParsedVideo where
  raw : String
  clean : String
  folder : String
  deriving Repr, DecidableEq

/-- Lines 215-224: build the `ParsedVideo` for a uniquely resolved movie.
The `" - "` occurrences in the catalog title are first rewritten to `". "`
(line 217), then the title is sanitized; the year is the part of the
release date before the first `-`. -/
def repDashSep : List Char → List Char
  | ' ' :: '-' :: ' ' :: rest => '.' :: ' ' :: repDashSep rest
  | c :: rest => c :: repDashSep rest
  | [] => []

def buildMovieVideo (raw : String) (m : Movie) (rest extension : String) :
    ParsedVideo :=
  let title := sanitizeFilename (String.mk (repDashSep m.title.data))
  let year := beforeDash m.release_date
  { raw
    folder := title ++ " (" ++ year ++ ") [tmdbid-" ++ natToStr m.id ++ "]"
    clean := title ++ " (" ++ year ++ ") [tmdbid-" ++ natToStr m.id ++ "] - " ++
      sanitizeFilename rest ++ "." ++ extension }

/-- Lines 199-243: narrowing and the three outcomes, given the candidate
list returned by the catalog. -/
def movieFinish (raw : String) (movies : List Movie) (query yearStr rest extension : String) :
    Option ParsedVideo × List Ev :=
  match resolveMovieList movies query yearStr with
  | .resolved m => (some (buildMovieVideo raw m rest extension), [])
  | .ambiguous l =>
    (none, [.errLine "Multiple titles found"] ++
      l.map (fun m => .errLine (m.title ++ " (" ++ beforeDash m.release_date ++
        ") [tmdbid-" ++ natToStr m.id ++ "]")) ++
      [.errLine "Add [tmdbid-xxxx] to the filename to specify the correct movie."])
  | .notFound => (none, [.errLine ("No titles found. Skipping.")])

/-- `parseMovieFilename` (lines 145-243), with the catalog as an explicit
parameter.  Returns the parse result and the trace of log lines and catalog
requests, in order. -/
def parseMovieFilename (cat : Catalog) (filename : String) :
    Option ParsedVideo × List Ev :=
  match parseMoviePhaseA filename with
  | .error .NoExtension => (none, [.errLine "No file extension found in filename"])
  | .error .NoYearFound =>
    (none, [.errLine "No year found in filename",
            .errLine "Expected filename format: Movie Title (year) extra info.ext"])
  | .ok (.byId id rest extension) =>
    let movies := (cat.movieById id).toList
    let (res, evs) := movieFinish filename movies "" "" rest extension
    (res, [.action ("Get from TMDB by id: " ++ natToStr id), .reqMovieById id] ++ evs)
  | .ok (.srch query year yearStr rest extension) =>
    let movies := cat.searchMovies query (some year)
    let (res, evs) := movieFinish filename movies query yearStr rest extension
    (res, [.action ("Search TMDB: " ++ query), .reqSearchMovies query (some year)] ++ evs)

/-! ### The season/episode token regexes (lines 350-361, 384)

`/\bS(\d{1,2})E(\d{1,3})\b/` and `/\b(\d{1,2})x(\d{1,3})\b/`, with or
without the `i` flag.  `grabDigits n` consumes exactly `n` digits; the
attempts are chained in the backtracking order of the greedy quantifiers:
`\d{1,2}` longest first, and for each choice `\d{1,3}` longest first. -/

def grabDigits : Nat → List Char → Option (List Char × List Char)
  | 0, l => some ([], l)
  | _ + 1, [] => none
  | n + 1, c :: cs =>
    if isDig c then (grabDigits n cs).map fun p => (c :: p.1, p.2) else none

/-- `\b` between the previous character and a word character. -/
def bdryOk : Option Char → Bool
  | none => true
  | some c => !isWordC c

/-- `\b` between the last matched (word) character and what follows. -/
def afterOk : List Char → Bool
  | [] => true
  | c :: _ => !isWordC c

/-- One backtracking attempt of `S\d{k1}E\d{k2}\b` after the leading letter:
returns (total match length, season digits, episode digits). -/
def seAttempt (eTest : Char → Bool) (k1 k2 : Nat) (rest : List Char) :
    Option (Nat × List Char × List Char) :=
  match grabDigits k1 rest with
  | none => none
  | some (sd, r1) =>
    match r1 with
    | e :: r2 =>
      if eTest e then
        match grabDigits k2 r2 with
        | none => none
        | some (ed, r3) =>
          if afterOk r3 then some (2 + k1 + k2, sd, ed) else none
      else none
    | [] => none

/-- Position matcher for the `SxxEyy` pattern. -/
def matchSEAt (sTest eTest : Char → Bool) (prev : Option Char) (l : List Char) :
    Option (Nat × List Char × List Char) :=
  if bdryOk prev then
    match l with
    | s :: rest =>
      if sTest s then
        ((((seAttempt eTest 2 3 rest).orElse fun _ => seAttempt eTest 2 2 rest).orElse
            fun _ => seAttempt eTest 2 1 rest).orElse
          fun _ => (seAttempt eTest 1 3 rest).orElse
            fun _ => (seAttempt eTest 1 2 rest).orElse
              fun _ => seAttempt eTest 1 1 rest)
      else none
    | [] => none
  else none

/-- One backtracking attempt of `\d{k1}x\d{k2}\b`. -/
def nxAttempt (xTest : Char → Bool) (k1 k2 : Nat) (l : List Char) :
    Option (Nat × List Char × List Char) :=
  match grabDigits k1 l with
  | none => none
  | some (sd, r1) =>
    match r1 with
    | x :: r2 =>
      if xTest x then
        match grabDigits k2 r2 with
        | none => none
        | some (ed, r3) =>
          if afterOk r3 then some (1 + k1 + k2, sd, ed) else none
      else none
    | [] => none

/-- Position matcher for the `NxM` pattern. -/
def matchNxAt (xTest : Char → Bool) (prev : Option Char) (l : List Char) :
    Option (Nat × List Char × List Char) :=
  if bdryOk prev then
    ((((nxAttempt xTest 2 3 l).orElse fun _ => nxAttempt xTest 2 2 l).orElse
        fun _ => nxAttempt xTest 2 1 l).orElse
      fun _ => (nxAttempt xTest 1 3 l).orElse
        fun _ => (nxAttempt xTest 1 2 l).orElse
          fun _ => nxAttempt xTest 1 1 l)
  else none

/-! ### classify (lines 350-361) -/

/-- The transform `isEpisodeFile` applies before matching:
`filename.toLowerCase().replace(/_/g, ' ')`, as a char list. -/
def episodeTransform (f : String) : List Char :=
  (jsToLower f).data.map fun c => if c == '_' then ' ' else c

/-- `isEpisodeFile`: lowercase, underscores to spaces, then test
`/\b\d{1,2}x\d{1,3}\b/` and `/\bs\d{1,2}e\d{1,3}\b/`. -/
def isEpisodeFile (filename : String) : Bool :=
  let lower := episodeTransform filename
  (scanFind (matchNxAt fun c => c == 'x') none lower 0).isSome ||
  (scanFind (matchSEAt (fun c => c == 's') fun c => c == 'e') none lower 0).isSome

/-! ### The reading the specification gives of classification (section 4.2)

Modelled from the spec: a filename is an Episode exactly when the
transformed text contains, as a whole-word match, an `NxM` token (1-2
digit season, `x`, 1-3 digit episode) or an `SxxEyy` token.  `lastOf`
gives the character immediately preceding an occurrence (if any), so
`WholeWordAt` says: the text splits as `pre ++ tok ++ post` with no word
character adjacent to `tok` on either side. -/

def lastOf (prev : Option Char) (pre : List Char) : Option Char :=
  pre.foldl (fun _ c => some c) prev

def NxTok (tok : List Char) : Prop :=
  ∃ s e, tok = s ++ 'x' :: e ∧ 1 ≤ s.length ∧ s.length ≤ 2 ∧ 1 ≤ e.length ∧
    e.length ≤ 3 ∧ s.all isDig = true ∧ e.all isDig = true

def SETok (tok : List Char) : Prop :=
  ∃ s e, tok = 's' :: (s ++ 'e' :: e) ∧ 1 ≤ s.length ∧ s.length ≤ 2 ∧
    1 ≤ e.length ∧ e.length ≤ 3 ∧ s.all isDig = true ∧ e.all isDig = true

def WholeWordAt (l tok : List Char) : Prop :=
  ∃ pre post, l = pre ++ (tok ++ post) ∧ bdryOk (lastOf none pre) = true ∧
    afterOk post = true

def EpisodeTokenSpec (f : String) : Prop :=
  (∃ tok, NxTok tok ∧ WholeWordAt (episodeTransform f) tok) ∨
  (∃ tok, SETok tok ∧ WholeWordAt (episodeTransform f) tok)

/-! ### Episode parsing (lines 363-517) -/

inductive EpFail
  | NoExtension
  | NoSeasonEpisode
  deriving Repr, DecidableEq

/-- The pure information `parseEpisodeFilename` has gathered before its
first catalog call (lines 363-424): explicit tag extraction and removal,
extension, season/episode token, title/rest split, override-table lookup,
episode-title guess, and the auxiliary year hint. -/
structure EpPre where
  id : String
  extension : String
  season : Nat
  episode : Nat
  title : String
  rest : String
  episodeTitle : String
  year : Option Nat
  deriving Repr, DecidableEq

/-- Lines 363-424.  `seriesData` is the override table loaded from
`series.json` (entry value `""` models an absent or empty `tmdbid`, which
is falsy in the source's check). -/
def parseEpisodePhaseA (seriesData : List (String × String)) (filename : String) :
    Except EpFail EpPre :=
  let raw0 := normalize filename
  let (tagId, raw) :=
    match tagFind raw0 with
    | some (i, len, digits) =>
      (String.mk digits, strTake raw0 i ++ jsTrim (strDrop raw0 (i + len)))
    | none => ("", raw0)
  match extTail raw with
  | none => .error .NoExtension
  | some extension =>
    let clean := cleanTitle raw
    let m :=
      match strFind (matchSEAt (chCI 's') (chCI 'e')) clean with
      | some r => some r
      | none => strFind (matchNxAt (chCI 'x')) clean
    match m with
    | none => .error .NoSeasonEpisode
    | some (idx, len, sd, ed) =>
      let season := toNatDigits sd
      let episode := toNatDigits ed
      let title0 := jsTrim (String.mk (dotsToSpaces (clean.data.take idx)))
      let rest0 := jsTrim (strDrop clean (idx + len))
      let id :=
        if tagId != "" then tagId
        else
          match seriesData.find? fun e =>
              simplify e.1 == simplify title0 && e.2 != "" with
          | some e => e.2
          | none => ""
      let episodeTitle := jsTrim (String.mk (rest0.data.takeWhile fun c => !isOpenBr c))
      let rest := if episodeTitle != "" then jsTrim (strDrop rest0 episodeTitle.length)
        else rest0
      match strFind yearBracketedAt title0 with
      | some (i, _, ds) =>
        .ok { id, extension, season, episode,
              title := jsTrim (strTake title0 i), rest, episodeTitle,
              year := some (toNatDigits ds) }
      | none =>
        .ok { id, extension, season, episode, title := title0, rest, episodeTitle,
              year := none }

/-- Lines 508-516: build the `ParsedVideo` for a resolved episode. -/
def buildEpisodeVideo (raw : String) (tvshow : TvShow) (firstYear episodeYear : String)
    (season episode : Nat) (chosenTitle rest extension : String) : ParsedVideo :=
  let seasonStr := pad2 season
  let episodeStr := pad2 episode
  { raw
    folder := (sanitizeFilename tvshow.name ++ " (" ++ firstYear ++ ") [tmdbid-" ++
      natToStr tvshow.id ++ "]") ++ "/" ++ ("Season " ++ seasonStr)
    clean := sanitizeFilename tvshow.name ++ " (" ++ episodeYear ++ ") S" ++
      seasonStr ++ "E" ++ episodeStr ++ " " ++ sanitizeFilename chosenTitle ++
      sanitizeFilename (if rest != "" then " - " ++ rest else "") ++ "." ++ extension }

/-- Lines 426-467: resolve the show, by id or by search with simplified-name
narrowing. -/
def resolveShow (cat : Catalog) (pre : EpPre) : Option TvShow × List Ev :=
  if pre.id != "" then
    let idN := toNatDigits pre.id.data
    match cat.tvById idN with
    | some tvshow => (some tvshow, [.action "Get TV show from TMDB by id", .reqTvById idN])
    | none => (none, [.action "Get TV show from TMDB by id", .reqTvById idN,
        .errLine "TV show not found"])
  else
    let evs := [.action "Search TMDB TV show", .reqSearchTv pre.title pre.year]
    let results := cat.searchTv pre.title pre.year
    if results.length == 0 then (none, evs ++ [.errLine "No TV show found"])
    else
      let results1 :=
        if results.length > 1 then
          let newResults := results.filter fun t => simplify t.name == simplify pre.title
          if newResults.length == 1 then newResults else results
        else results
      if results1.length > 1 then
        (none, evs ++ [.errLine "Multiple TV shows found"] ++
          results1.map fun t => .errLine (t.name ++ " [tmdbid-" ++ natToStr t.id ++ "]"))
      else (results1.head?, evs)

/-- `parseEpisodeFilename` (lines 363-517), with the catalog and the
configuration flag `keepFileEpisode` explicit. -/
def parseEpisodeFilename (cat : Catalog) (seriesData : List (String × String))
    (keepFileEpisode : Bool) (filename : String) : Option ParsedVideo × List Ev :=
  match parseEpisodePhaseA seriesData filename with
  | .error .NoExtension => (none, [.errLine "No file extension found in filename"])
  | .error .NoSeasonEpisode => (none, [.errLine "No season/episode info found in filename"])
  | .ok pre =>
    match resolveShow cat pre with
    | (none, evs) => (none, evs)
    | (some tvshow, evs) =>
      let firstYear := tvshow.first_air_date.map beforeDash
      match firstYear with
      | none => (none, evs ++ [.errLine "TV show first air date not found"])
      | some fy =>
        if fy == "" then (none, evs ++ [.errLine "TV show first air date not found"])
        else
          let evs := evs ++ [.action "Get TV episode details",
            .reqEpisode tvshow.id pre.season pre.episode]
          match cat.episodeDetails tvshow.id pre.season pre.episode with
          | none => (none, evs ++ [.errLine "TV episode not found"])
          | some epInfo =>
            let evs := evs ++
              (if pre.episodeTitle != "" &&
                  simplify epInfo.name != simplify pre.episodeTitle then
                [.warnLine "Episode title from filename does not match TMDB title"]
              else [])
            let fallbackYear :=
              match pre.year with
              | some y => natToStr y
              | none => fy
            let episodeYear :=
              match epInfo.air_date with
              | some a => if a != "" then beforeDash a else fallbackYear
              | none => fallbackYear
            let chosenTitle := if keepFileEpisode then pre.episodeTitle else epInfo.name
            (some (buildEpisodeVideo filename tvshow fy episodeYear pre.season
              pre.episode chosenTitle pre.rest pre.extension), evs)

/-! ### The placement engine (lines 245-348, 519-560, 562-623)

The filesystem is an explicit world (the incoming directory listing plus
the set of destination paths created so far).  Filesystem mutations are
performed through `perform`: in dry-run mode the call site is skipped
exactly as in the source (`if (!dry) ...`); otherwise the operation either
succeeds and is recorded, or fails according to the failure oracle `bad`.
The source wraps no filesystem call in any try/catch, so a failure is an
uncaught exception: under the runtime's default unhandled-rejection policy
the process dies before any further item completes.  This is modelled by
the `aborted` flag, which silences everything after the failure. -/

structure Config where
  incoming : String
  moviesPath : String
  seriesPath : String
  link : Bool
  dryRun : Bool
  keepFileEpisode : Bool
  extensions : List String
  seriesData : List (String × String)

inductive FsAct
  | mkdir (path : String)
  | move (srcName : String) (dst : String)
  | link (srcName : String) (dst : String)
  deriving Repr, DecidableEq

structure World where
  files : List String
  destTree : List String
  deriving Repr, DecidableEq

def applyFs (w : World) (a : FsAct) : World :=
  match a with
  | .mkdir p => { w with destTree := p :: w.destTree }
  | .move src dst =>
    { files := w.files.filter fun f => f != src, destTree := dst :: w.destTree }
  | .link _ dst => { w with destTree := dst :: w.destTree }

structure St where
  world : World
  trace : List Ev
  performed : List FsAct
  aborted : Bool
  deriving Repr, DecidableEq

def St.init (w : World) : St :=
  { world := w, trace := [], performed := [], aborted := false }

def emit (e : Ev) (st : St) : St :=
  if st.aborted then st else { st with trace := st.trace ++ [e] }

def emits (es : List Ev) (st : St) : St :=
  es.foldl (fun s e => emit e s) st

def perform (cfg : Config) (bad : FsAct → Bool) (a : FsAct) (st : St) : St :=
  if st.aborted then st
  else if cfg.dryRun then st
  else if bad a then { st with aborted := true }
  else { st with world := applyFs st.world a, performed := st.performed ++ [a] }

/-- `moveVideoToFolder` (lines 252-267). -/
def moveVideoToFolder (cfg : Config) (bad : FsAct → Bool) (video : ParsedVideo)
    (videoFolder : String) (st : St) : St :=
  let st := emit (.action ("Create folder: " ++ videoFolder)) st
  let st := perform cfg bad (.mkdir videoFolder) st
  let dst := pathJoin videoFolder video.clean
  let st := emit (.action ((if cfg.link then "Link" else "Move") ++ " file to: " ++ dst)) st
  perform cfg bad (if cfg.link then .link video.raw dst else .move video.raw dst) st

/-! #### Subtitle sidecars (lines 269-308) -/

def subtitleExtensions : List String :=
  ["srt", "sub", "ass", "ssa", "vtt", "idx", "smi"]

def isAlphaCI (c : Char) : Bool :=
  (97 ≤ c.toNat && c.toNat ≤ 122) || (65 ≤ c.toNat && c.toNat ≤ 90)

def grabAlpha : Nat → List Char → Option (List Char × List Char)
  | 0, l => some ([], l)
  | _ + 1, [] => none
  | n + 1, c :: cs =>
    if isAlphaCI c then (grabAlpha n cs).map fun p => (c :: p.1, p.2) else none

/-- `\.(\w+)$`: a dot followed by a non-empty all-word-character tail. -/
def finalExt : List Char → Option (List Char)
  | '.' :: rest => if !rest.isEmpty && rest.all isWordC then some rest else none
  | _ => none

/-- One attempt of the leading language group with `k1` letters, trying the
optional `[_-][a-z]{2,3}` subgroup greedily (3 letters, then 2, then
absent); returns (captured language code, captured extension). -/
def subAttempt (k1 : Nat) (l : List Char) : Option (String × String) :=
  match l with
  | '.' :: r1 =>
    match grabAlpha k1 r1 with
    | none => none
    | some (lang, r2) =>
      let withSub := fun (k3 : Nat) =>
        match r2 with
        | sep :: r3 =>
          if sep == '-' || sep == '_' then
            match grabAlpha k3 r3 with
            | none => none
            | some (_, r4) => (finalExt r4).map fun e => (String.mk lang, String.mk e)
          else none
        | [] => none
      ((withSub 3).orElse fun _ => (withSub 2).orElse fun _ =>
        (finalExt r2).map fun e => (String.mk lang, String.mk e))
  | _ => none

/-- The anchored subtitle-suffix regex
`/^(\.([a-z]{2,3})([_-][a-z]{2,3})?)?\.(\w+)$/i` (line 284): the optional
language group is tried greedily (3 letters, then 2), then the plain
`.ext` form.  Returns (language-code capture or `""`, extension capture). -/
def matchSubtitleSuffix (sfx : List Char) : Option (String × String) :=
  ((subAttempt 3 sfx).orElse fun _ => (subAttempt 2 sfx).orElse fun _ =>
    (finalExt sfx).map fun e => ("", String.mk e))

/-- `moveSubtitles` (lines 269-308): scan the current incoming listing for
files sharing the primary's base name with a subtitle suffix. -/
def moveSubtitles (cfg : Config) (bad : FsAct → Bool) (video : ParsedVideo)
    (videoFolder : String) (st : St) : St :=
  let baseRaw := dropExt video.raw
  let baseClean := dropExt video.clean
  let snapshot := st.world.files
  snapshot.foldl
    (fun st file =>
      if strBegins file.data baseRaw.data then
        match matchSubtitleSuffix (file.data.drop baseRaw.data.length) with
        | some (lang, ext0) =>
          let extension := jsToLower ext0
          if subtitleExtensions.contains extension then
            let destName :=
              if lang != "" then baseClean ++ "." ++ lang ++ "." ++ extension
              else baseClean ++ "." ++ extension
            let dst := pathJoin videoFolder destName
            let st := emit (.action ((if cfg.link then "Link" else "Move") ++
              " subtitle to: " ++ dst)) st
            perform cfg bad (if cfg.link then .link file dst else .move file dst) st
          else st
        | none => st
      else st)
    st

/-! #### Movie metadata sidecars (lines 317-347) -/

def metaSuffixes : List String :=
  [".nfo", ".trickplay", "-backdrop.jpg", "-backdrop.webp", "-poster.jpg",
   "-poster.webp", "-logo.jpg", "-logo.png", "-logo.webp", "-landscape.jpg",
   "-landscape.webp"]

/-- JS single replace of the first dash by nothing: remove the first `-`. -/
def dropFirstDash : List Char → List Char
  | [] => []
  | '-' :: rest => rest
  | c :: rest => c :: dropFirstDash rest

/-- The destination name of one metadata sidecar (lines 335-341). -/
def metaDestName (baseClean sfx : String) : String :=
  sanitizeFilename
    (if sfx == ".nfo" then "movie.nfo"
     else if sfx == ".trickplay" then baseClean ++ ".trickplay"
     else String.mk (dropFirstDash sfx.data))

/-- The metadata loop of `processVideoFile` (lines 317-347); these always
use a plain move, even in link mode. -/
def moveMetaFiles (cfg : Config) (bad : FsAct → Bool) (video : ParsedVideo)
    (videoFolder : String) (st : St) : St :=
  let baseRaw := dropExt video.raw
  let baseClean := dropExt video.clean
  metaSuffixes.foldl
    (fun st sfx =>
      let metaName := baseRaw ++ sfx
      if st.world.files.contains metaName then
        let destinationName := metaDestName baseClean sfx
        let dst := pathJoin videoFolder destinationName
        let st := emit (.action ("Move " ++ sfx ++ " to: " ++ dst)) st
        perform cfg bad (.move metaName dst) st
      else st)
    st

/-- `processVideoFile` (lines 310-348). -/
def processVideoFile (cfg : Config) (bad : FsAct → Bool) (video : ParsedVideo)
    (st : St) : St :=
  let videoFolder := pathJoin cfg.moviesPath video.folder
  let st := moveVideoToFolder cfg bad video videoFolder st
  let st := moveSubtitles cfg bad video videoFolder st
  moveMetaFiles cfg bad video videoFolder st

/-- `processEpisodeFile` (lines 519-525). -/
def processEpisodeFile (cfg : Config) (bad : FsAct → Bool) (video : ParsedVideo)
    (st : St) : St :=
  let videoPath := pathJoin cfg.seriesPath video.folder
  let st := moveVideoToFolder cfg bad video videoPath st
  moveSubtitles cfg bad video videoPath st

/-- `getVideosInDirectory` (lines 245-250): `file.split('.').pop()`. -/
def lastDotSeg (s : String) : String :=
  String.mk ((s.data.reverse.takeWhile fun c => !(c == '.')).reverse)

def getVideosInDirectory (files : List String) (extensions : List String) :
    List String :=
  files.filter fun f => extensions.contains (jsToLower (lastDotSeg f))

/-- One iteration of the main loop (lines 602-620). -/
def runItem (cfg : Config) (cat : Catalog) (bad : FsAct → Bool) (file : String)
    (st : St) : St :=
  let st := emit (.info ("Processing: " ++ file)) st
  if isEpisodeFile file then
    match parseEpisodeFilename cat cfg.seriesData cfg.keepFileEpisode file with
    | (some pv, evs) =>
      let st := emits evs st
      let st := processEpisodeFile cfg bad pv st
      emit (.action "") st
    | (none, evs) =>
      let st := emits evs st
      let st := emit (.action "Skipping file") st
      emit (.action "") st
  else
    match parseMovieFilename cat file with
    | (some pv, evs) =>
      let st := emits evs st
      let st := processVideoFile cfg bad pv st
      emit (.action "") st
    | (none, evs) =>
      let st := emits evs st
      let st := emit (.action "Skipping file") st
      emit (.action "") st

/-- `main` (lines 562-623) after configuration resolution and startup
validation: enumerate the incoming videos once, optionally filter out
already-linked files in link mode (`linked` models the read-only
inode-identity scan of `isFileAlreadyLinked`), and process the items
strictly in order. -/
def runMain (cfg : Config) (cat : Catalog) (bad : FsAct → Bool)
    (linked : String → Bool) (w : World) : St :=
  let videoFiles := getVideosInDirectory w.files cfg.extensions
  let videoFiles := if cfg.link then videoFiles.filter (fun f => !linked f)
    else videoFiles
  videoFiles.foldl (fun st f => runItem cfg cat bad f st) (St.init w)

/-! ### Concrete instances and auxiliary predicates used by the theorems below -/

def duneA : Movie := ⟨101, "Dune", "1984-12-14", ""⟩
def duneB : Movie := ⟨102, "Dune", "2021-10-22", ""⟩
def duneC : Movie := ⟨103, "Dune", "1984-11-11", ""⟩

def Ev.isSearchMoviesReq : Ev → Bool
  | .reqSearchMovies _ _ => true
  | _ => false

def Ev.isMovieByIdReq : Ev → Bool
  | .reqMovieById _ => true
  | _ => false

def movie27205 : Movie := ⟨27205, "Inception", "2010-07-15", "A thief"⟩

def cat27205 : Catalog where
  movieById := fun n => if n == 27205 then some movie27205 else none
  searchMovies := fun _ _ => []
  tvById := fun _ => none
  searchTv := fun _ _ => []
  episodeDetails := fun _ _ _ => none

/-- A run configuration with the default extension allow-list of the source and
explicit destination directories. -/
def cfg0 : Config where
  incoming := "/in"
  moviesPath := "/movies"
  seriesPath := "/series"
  link := false
  dryRun := false
  keepFileEpisode := false
  extensions := ["mkv", "avi", "mp4", "mov"]
  seriesData := []

/-- The catalog of the claim: searching ("The Matrix", 1999) returns exactly one
record. -/
def matrixCat : Catalog where
  movieById := fun _ => none
  searchMovies := fun q y =>
    if q == "The Matrix" && y == some 1999 then
      [⟨603, "The Matrix", "1999-03-30", "A computer hacker"⟩]
    else []
  tvById := fun _ => none
  searchTv := fun _ _ => []
  episodeDetails := fun _ _ _ => none

def Keeps (s t : St) : Prop :=
  s.world = t.world ∧ s.performed = t.performed ∧ s.aborted = t.aborted

def alphaCat : Catalog where
  movieById := fun _ => none
  searchMovies := fun q _ =>
    if q == "Alpha" then [⟨1, "Alpha", "2001-01-01", "x"⟩]
    else if q == "Beta" then [⟨2, "Beta", "2002-01-01", "y"⟩]
    else []
  tvById := fun _ => none
  searchTv := fun _ _ => []
  episodeDetails := fun _ _ _ => none

/-- A failure oracle making the primary move of the first item fail
(e.g. `EACCES` or `EXDEV` on `renameSync`). -/
def badAlpha : FsAct → Bool := fun a =>
  match a with
  | .move s _ => s == "Alpha (2001).mkv"
  | _ => false

/-- A path component free of the three characters `sanitizeFilename`
replaces: `:`, `/` and NUL. -/
def noBadChar (c : Char) : Bool :=
  !(c == ':' || c == '/' || c.toNat == 0)

def noBad (t : String) : Bool :=
  t.data.all noBadChar

def cat1999 : Catalog where
  movieById := fun _ => none
  searchMovies := fun q _ => if q == "Movie" then [⟨1, "Movie", "1999-01-01", "x"⟩] else []
  tvById := fun _ => none
  searchTv := fun _ _ => []
  episodeDetails := fun _ _ _ => none

/-! ## Helper lemmas -/

theorem strMk_data (s : String) : String.mk s.data = s := by
  cases s
  rfl

/-- `toLowerChar` fixes lowercase letters and digits. -/
theorem toLowerChar_fix {c : Char} (h : isLowerAlnum c = true) : toLowerChar c = c := by
  simp only [isLowerAlnum, isDig, Bool.or_eq_true, Bool.and_eq_true, decide_eq_true_eq] at h
  unfold toLowerChar
  rw [if_neg (by omega), if_neg (by omega)]

/-- `nfdChar` fixes lowercase letters and digits. -/
theorem nfdChar_fix {c : Char} (h : isLowerAlnum c = true) : nfdChar c = [c] := by
  simp only [isLowerAlnum, isDig, Bool.or_eq_true, Bool.and_eq_true, decide_eq_true_eq] at h
  unfold nfdChar
  rw [if_pos]
  omega

theorem isLowerAlnum_not_mark {c : Char} (h : isLowerAlnum c = true) :
    isCombiningMark c = false := by
  simp only [isLowerAlnum, isDig, Bool.or_eq_true, Bool.and_eq_true, decide_eq_true_eq] at h
  simp only [isCombiningMark, Bool.and_eq_false_iff, decide_eq_false_iff_not]
  omega

theorem map_id_of {f : Char → Char} : ∀ {l : List Char}, (∀ c ∈ l, f c = c) →
    l.map f = l
  | [], _ => rfl
  | a :: l, h => by
    simp only [List.map_cons, List.cons.injEq]
    exact ⟨h a (by simp), map_id_of fun c hc => h c (by simp [hc])⟩

theorem flatMap_id_of {f : Char → List Char} : ∀ {l : List Char},
    (∀ c ∈ l, f c = [c]) → l.flatMap f = l
  | [], _ => rfl
  | a :: l, h => by
    simp only [List.flatMap_cons, h a (by simp)]
    simp only [List.cons_append, List.nil_append, List.cons.injEq, true_and]
    exact flatMap_id_of fun c hc => h c (by simp [hc])

/-! ## C10: simplify -/

/-- C10.  `simplify` only ever outputs ASCII lowercase letters and digits,
and it is idempotent; the concrete instance shows that it erases case and
accents, so the resolver's `simplify`-based title comparisons cannot
distinguish `"Amélie"` from `"amelie"`. -/
theorem c10_simplify_alphabet_idempotent :
    (∀ s : String, (simplify s).data.all isLowerAlnum = true) ∧
    (∀ s : String, simplify (simplify s) = simplify s) ∧
    simplify "Amélie" = simplify "amelie" := by
  have halpha : ∀ s : String, (simplify s).data.all isLowerAlnum = true := by
    intro s
    apply List.all_eq_true.2
    intro c hc
    simp only [simplify] at hc
    exact (List.mem_filter.1 hc).2
  refine ⟨halpha, ?_, by decide⟩
  intro s
  have h := halpha s
  set t := simplify s with ht
  have hall : ∀ c ∈ t.data, isLowerAlnum c = true := List.all_eq_true.1 h
  have h1 : t.data.map toLowerChar = t.data := map_id_of fun c hc => toLowerChar_fix (hall c hc)
  have h2 : t.data.flatMap nfdChar = t.data := flatMap_id_of fun c hc => nfdChar_fix (hall c hc)
  have h3 : t.data.filter (fun c => !isCombiningMark c) = t.data :=
    List.filter_eq_self.2 fun c hc => by rw [isLowerAlnum_not_mark (hall c hc)]; rfl
  have h4 : t.data.filter isLowerAlnum = t.data :=
    List.filter_eq_self.2 fun c hc => hall c hc
  show simplify t = t
  unfold simplify
  simp only [h1, h2, h3, h4, strMk_data]

/-! ## C9: normalize -/

theorem normChar_fix {c : Char} (hlt : c.toNat < 256)
    (hc1 : ¬(0x80 ≤ c.toNat ∧ c.toNat ≤ 0x9F)) : normChar c = c := by
  unfold normChar
  rw [Nat.mod_eq_of_lt hlt, if_neg hc1, if_pos rfl]

/-- C9.  The Windows-1252 re-decode never fails (it is a total function by
construction) and passes already-correct text through unchanged, hence
`normalize (normalize x) = normalize x` on such text. -/
theorem c9_normalize_idempotent (s : String) (h : alreadyCorrect s = true) :
    normalize s = s ∧ normalize (normalize s) = normalize s := by
  have hfix : normalize s = s := by
    unfold normalize
    have : s.data.map normChar = s.data := map_id_of fun c hc => by
      have := List.all_eq_true.1 h c hc
      simp only [Bool.and_eq_true, decide_eq_true_eq, Bool.not_eq_eq_eq_not,
        Bool.not_true, Bool.and_eq_false_iff, decide_eq_false_iff_not] at this
      exact normChar_fix this.1 (by omega)
    rw [this, strMk_data]
  exact ⟨hfix, by rw [hfix]; exact hfix⟩

/-- C9 witness: a concrete already-correct (accented Latin-1) filename. -/
theorem c9_normalize_idempotent_witness :
    normalize "Amélie (2001).mkv" = "Amélie (2001).mkv" ∧
    normalize (normalize "Amélie (2001).mkv") = normalize "Amélie (2001).mkv" :=
  c9_normalize_idempotent "Amélie (2001).mkv" (by decide)

/-! ## C1: movie candidate narrowing -/

/-- C1.  Narrowing only runs when more than one candidate arrived; when it
does, the code resolves to exactly the candidate that the spec's reference
definition (`specAdoptMovie`: title/year filter, then synopsis filter of
the already-filtered set) adopts, and reports `ambiguous` (never a silent
pick) whenever the reference definition adopts none.  On the claim's
concrete candidates the 1984 record is selected, and with two candidates
that tie on title and year prefix and both lack a synopsis the result is
ambiguous. -/
theorem c1_movie_narrowing :
    (∀ (ms : List Movie) (q y : String), ms.length ≤ 1 → narrowMovies ms q y = ms) ∧
    (∀ (ms : List Movie) (q y : String), 1 < ms.length →
      (∀ m, specAdoptMovie ms q y = some m → resolveMovieList ms q y = .resolved m) ∧
      (specAdoptMovie ms q y = none → (resolveMovieList ms q y).isAmbiguous = true)) ∧
    resolveMovieList [duneA, duneB] "Dune" "1984" = .resolved duneA ∧
    (resolveMovieList [duneA, duneC] "Dune" "1984").isAmbiguous = true := by
  refine ⟨?_, ?_, by decide, by decide⟩
  · intro ms q y h
    unfold narrowMovies
    rw [if_neg (by omega)]
  · intro ms q y h
    obtain ⟨a, b, t, rfl⟩ : ∃ a b t, ms = a :: b :: t := by
      match ms, h with
      | a :: b :: t, _ => exact ⟨a, b, t, rfl⟩
    simp only [specAdoptMovie, resolveMovieList, narrowMovies, if_pos h]
    set nm := (a :: b :: t).filter fun m =>
      simplify m.title == simplify q && strBegins m.release_date.data y.data with hnm
    set nm2 := nm.filter (fun m => m.overview != "") with hnm2
    clear_value nm2
    clear_value nm
    clear hnm
    by_cases h1 : nm.length = 1
    · obtain ⟨m, rfl⟩ := List.length_eq_one.1 h1
      by_cases hov : (m.overview != "") = true
      · have h2 : nm2 = [m] := by rw [hnm2]; simp [List.filter_cons, hov]
        subst h2
        simp
      · have h2 : nm2 = [] := by
          rw [hnm2]
          simp only [Bool.not_eq_true] at hov
          simp [List.filter_cons, hov]
        subst h2
        simp
    · by_cases h2 : nm2.length = 1
      · obtain ⟨m2, rfl⟩ := List.length_eq_one.1 h2
        simp [h1]
      · simp [h1, h2, MovieResolution.isAmbiguous]

/-- C1 witness: the general statements instantiated at the concrete
concrete inputs. -/
theorem c1_movie_narrowing_witness :
    narrowMovies [duneA] "Dune" "1984" = [duneA] ∧
    resolveMovieList [duneA, duneB] "Dune" "1984" = .resolved duneA := by
  refine ⟨c1_movie_narrowing.1 [duneA] "Dune" "1984" (by decide), ?_⟩
  exact (c1_movie_narrowing.2.1 [duneA, duneB] "Dune" "1984" (by decide)).1 duneA (by decide)

/-! ## C2: movie year location -/

/-- A successful scan means the position matcher succeeded somewhere. -/
theorem scanFind_some {α} {p : Option Char → List Char → Option α} :
    ∀ {l : List Char} {prev : Option Char} {i j : Nat} {a : α},
      scanFind p prev l i = some (j, a) → ∃ prev' l', p prev' l' = some a := by
  intro l
  induction l with
  | nil =>
    intro prev i j a h
    unfold scanFind at h
    cases hp : p prev [] with
    | none => rw [hp] at h; simp at h
    | some b =>
      rw [hp] at h
      simp only [Option.map, Option.some.injEq, Prod.mk.injEq] at h
      exact ⟨prev, [], by rw [hp, h.2]⟩
  | cons c rest ih =>
    intro prev i j a h
    unfold scanFind at h
    cases hp : p prev (c :: rest) with
    | none => rw [hp] at h; exact ih h
    | some b =>
      rw [hp] at h
      simp only [Option.some.injEq, Prod.mk.injEq] at h
      exact ⟨prev, c :: rest, by rw [hp, h.2]⟩

theorem yearBracketedAt_shape {prev : Option Char} {l : List Char} {len : Nat}
    {ds : List Char} (h : yearBracketedAt prev l = some (len, ds)) :
    ∃ a b c d, ds = [a, b, c, d] ∧ yearHead a b = true ∧ isDig c = true ∧
      isDig d = true := by
  unfold yearBracketedAt at h
  split at h
  · split at h
    · rename_i o a b c d cl rest hcond
      simp only [Bool.and_eq_true] at hcond
      obtain ⟨⟨⟨⟨_, h2⟩, h3⟩, h4⟩, _⟩ := hcond
      simp only [Option.some.injEq, Prod.mk.injEq] at h
      exact ⟨a, b, c, d, h.2.symm, h2, h3, h4⟩
    · simp at h
  · simp at h

theorem yearAfterTextAt_shape {prev : Option Char} {l : List Char} {len : Nat}
    {ds : List Char} (h : yearAfterTextAt prev l = some (len, ds)) :
    ∃ a b c d, ds = [a, b, c, d] ∧ yearHead a b = true ∧ isDig c = true ∧
      isDig d = true := by
  unfold yearAfterTextAt at h
  split at h
  · split at h
    · split at h
      · split at h
        · rename_i hcond
          simp only [Bool.and_eq_true] at hcond
          obtain ⟨⟨⟨h1, h2⟩, h3⟩, _⟩ := hcond
          simp only [Option.some.injEq, Prod.mk.injEq] at h
          exact ⟨_, _, _, _, h.2.symm, h1, h2, h3⟩
        · simp at h
      · simp at h
    · simp at h
  · simp at h

theorem yearBareAt_shape {prev : Option Char} {l : List Char} {len : Nat}
    {ds : List Char} (h : yearBareAt prev l = some (len, ds)) :
    ∃ a b c d, ds = [a, b, c, d] ∧ yearHead a b = true ∧ isDig c = true ∧
      isDig d = true := by
  unfold yearBareAt at h
  split at h
  · split at h
    · rename_i hcond
      simp only [Bool.and_eq_true] at hcond
      obtain ⟨⟨h1, h2⟩, h3⟩ := hcond
      simp only [Option.some.injEq, Prod.mk.injEq] at h
      exact ⟨_, _, _, _, h.2.symm, h1, h2, h3⟩
    · simp at h
  · simp at h

theorem year_digits_range {a b c d : Char} (hy : yearHead a b = true)
    (hc : isDig c = true) (hd : isDig d = true) :
    1900 ≤ toNatDigits [a, b, c, d] ∧ toNatDigits [a, b, c, d] ≤ 2099 := by
  simp only [yearHead, Bool.or_eq_true, Bool.and_eq_true, beq_iff_eq] at hy
  simp only [isDig, Bool.and_eq_true, decide_eq_true_eq] at hc hd
  simp only [toNatDigits, List.foldl]
  rcases hy with ⟨rfl, rfl⟩ | ⟨rfl, rfl⟩ <;>
    simp only [show ('1' : Char).toNat = 49 from rfl, show ('9' : Char).toNat = 57 from rfl,
      show ('2' : Char).toNat = 50 from rfl, show ('0' : Char).toNat = 48 from rfl] <;>
    omega

/-- C2.  Year location for movie filenames without an explicit id tag:
the three rules (year alone in brackets; year after non-digit text in
brackets; bare year) are tried in priority order and the first success
wins; if none matches the parse fails with `NoYearFound`; on success the
trimmed text before the match is the search title and the trimmed text
after it the remainder, and the matched year digits always denote a year
in 1900-2099.  The claim's round-trip example is checked concretely. -/
theorem c2_year_rules :
    (∀ (s : String) r, strFind yearBracketedAt s = some r → locateYear s = some r) ∧
    (∀ (s : String) r, strFind yearBracketedAt s = none →
      strFind yearAfterTextAt s = some r → locateYear s = some r) ∧
    (∀ s : String, strFind yearBracketedAt s = none →
      strFind yearAfterTextAt s = none → locateYear s = strFind yearBareAt s) ∧
    (∀ f ext, extTail (normalize f) = some ext →
      tagFind (cleanTitle (normalize f)) = none →
      locateYear (cleanTitle (normalize f)) = none →
      parseMoviePhaseA f = .error .NoYearFound) ∧
    (∀ f ext i len ds, extTail (normalize f) = some ext →
      tagFind (cleanTitle (normalize f)) = none →
      locateYear (cleanTitle (normalize f)) = some (i, len, ds) →
      parseMoviePhaseA f = .ok (.srch (jsTrim (strTake (cleanTitle (normalize f)) i))
        (toNatDigits ds) (String.mk ds)
        (jsTrim (strDrop (cleanTitle (normalize f)) (i + len))) ext)) ∧
    (∀ (s : String) i len ds, locateYear s = some (i, len, ds) →
      1900 ≤ toNatDigits ds ∧ toNatDigits ds ≤ 2099) ∧
    parseMoviePhaseA "Inception (2010) BluRay.mkv" =
      .ok (.srch "Inception" 2010 "2010" "BluRay" "mkv") := by
  refine ⟨?_, ?_, ?_, ?_, ?_, ?_, rfl⟩
  · intro s r h
    unfold locateYear
    rw [h]
  · intro s r h1 h2
    unfold locateYear
    rw [h1, h2]
  · intro s h1 h2
    unfold locateYear
    rw [h1, h2]
    cases strFind yearBareAt s <;> rfl
  · intro f ext hext htag hyear
    unfold parseMoviePhaseA
    simp only [hext, htag, hyear]
  · intro f ext i len ds hext htag hyear
    unfold parseMoviePhaseA
    simp only [hext, htag, hyear]
  · intro s i len ds h
    unfold locateYear at h
    split at h
    · rename_i i1 len1 ds1 heq
      unfold strFind at heq
      obtain ⟨p', l', hp⟩ := scanFind_some heq
      obtain ⟨a, b, c, d, hds, hy, hc, hd⟩ := yearBracketedAt_shape hp
      simp only [Option.some.injEq, Prod.mk.injEq] at h
      obtain ⟨-, -, hds2⟩ := h
      rw [← hds2, hds]
      exact year_digits_range hy hc hd
    · split at h
      · rename_i i1 len1 ds1 heq
        unfold strFind at heq
        obtain ⟨p', l', hp⟩ := scanFind_some heq
        obtain ⟨a, b, c, d, hds, hy, hc, hd⟩ := yearAfterTextAt_shape hp
        simp only [Option.some.injEq, Prod.mk.injEq] at h
        obtain ⟨-, -, hds2⟩ := h
        rw [← hds2, hds]
        exact year_digits_range hy hc hd
      · split at h
        · rename_i i1 len1 ds1 heq
          unfold strFind at heq
          obtain ⟨p', l', hp⟩ := scanFind_some heq
          obtain ⟨a, b, c, d, hds, hy, hc, hd⟩ := yearBareAt_shape hp
          simp only [Option.some.injEq, Prod.mk.injEq] at h
          obtain ⟨-, -, hds2⟩ := h
          rw [← hds2, hds]
          exact year_digits_range hy hc hd
        · simp at h

/-- C2 witness: the slicing rule and the year-range bound instantiated at
the claim's round-trip example. -/
theorem c2_year_rules_witness :
    parseMoviePhaseA "Inception (2010) BluRay.mkv" =
      .ok (.srch (jsTrim (strTake (cleanTitle (normalize "Inception (2010) BluRay.mkv")) 10))
        (toNatDigits ['2', '0', '1', '0']) (String.mk ['2', '0', '1', '0'])
        (jsTrim (strDrop (cleanTitle (normalize "Inception (2010) BluRay.mkv")) (10 + 6)))
        "mkv") ∧
    (1900 ≤ toNatDigits ['2', '0', '1', '0'] ∧ toNatDigits ['2', '0', '1', '0'] ≤ 2099) :=
  ⟨c2_year_rules.2.2.2.2.1 "Inception (2010) BluRay.mkv" "mkv" 10 6 ['2', '0', '1', '0']
      rfl rfl rfl,
   c2_year_rules.2.2.2.2.2.1 (cleanTitle (normalize "Inception (2010) BluRay.mkv")) 10 6
      ['2', '0', '1', '0'] rfl⟩

/-! ## C3: explicit-id bypass -/

/-- C3.  Whenever the cleaned filename contains a `[tmdbid-NNN]` tag, the
parse takes the explicit-id branch (captured digits become the id, the
trimmed text after the tag the remainder), and the resolution trace
contains a by-id request and, for every catalog whatsoever, no search
request.  Checked concretely on the claim's example. -/
theorem c3_explicit_id_bypass :
    (∀ f ext i len ds, extTail (normalize f) = some ext →
      tagFind (cleanTitle (normalize f)) = some (i, len, ds) →
      parseMoviePhaseA f = .ok (.byId (toNatDigits ds)
        (jsTrim (strDrop (cleanTitle (normalize f)) (i + len))) ext) ∧
      ∀ cat : Catalog,
        (parseMovieFilename cat f).2.any Ev.isMovieByIdReq = true ∧
        (parseMovieFilename cat f).2.all (fun e => !e.isSearchMoviesReq) = true) ∧
    parseMoviePhaseA "Movie [tmdbid-27205] extra.mkv" = .ok (.byId 27205 "extra" "mkv") ∧
    (parseMovieFilename cat27205 "Movie [tmdbid-27205] extra.mkv").2 =
      [.action ("Get from TMDB by id: " ++ natToStr 27205), .reqMovieById 27205] := by
  have key : ∀ f ext i len ds, extTail (normalize f) = some ext →
      tagFind (cleanTitle (normalize f)) = some (i, len, ds) →
      parseMoviePhaseA f = .ok (.byId (toNatDigits ds)
        (jsTrim (strDrop (cleanTitle (normalize f)) (i + len))) ext) := by
    intro f ext i len ds hext htag
    unfold parseMoviePhaseA
    simp only [hext, htag]
  refine ⟨?_, rfl, rfl⟩
  intro f ext i len ds hext htag
  refine ⟨key f ext i len ds hext htag, ?_⟩
  intro cat
  unfold parseMovieFilename
  rw [key f ext i len ds hext htag]
  cases hm : cat.movieById (toNatDigits ds) with
  | none =>
    simp [hm, movieFinish, resolveMovieList, narrowMovies, Ev.isMovieByIdReq,
      Ev.isSearchMoviesReq]
  | some m =>
    simp [hm, movieFinish, resolveMovieList, narrowMovies, Ev.isMovieByIdReq,
      Ev.isSearchMoviesReq]

/-- C3 witness: the bypass instantiated at the example filename of the claim. -/
theorem c3_explicit_id_bypass_witness :
    parseMoviePhaseA "Movie [tmdbid-27205] extra.mkv" =
      .ok (.byId (toNatDigits ['2', '7', '2', '0', '5'])
        (jsTrim (strDrop (cleanTitle (normalize "Movie [tmdbid-27205] extra.mkv")) (6 + 14)))
        "mkv") ∧
    (parseMovieFilename cat27205 "Movie [tmdbid-27205] extra.mkv").2.all
      (fun e => !e.isSearchMoviesReq) = true :=
  ⟨(c3_explicit_id_bypass.1 "Movie [tmdbid-27205] extra.mkv" "mkv" 6 14
      ['2', '7', '2', '0', '5'] rfl rfl).1,
   ((c3_explicit_id_bypass.1 "Movie [tmdbid-27205] extra.mkv" "mkv" 6 14
      ['2', '7', '2', '0', '5'] rfl rfl).2 cat27205).2⟩

/-! ## C5: movie path building -/

/-- C5.  Every uniquely resolved movie is placed under
`"{sanitized title} ({year}) [tmdbid-{id}]"` with filename
`"{sanitized title} ({year}) [tmdbid-{id}] - {sanitized remainder}.{ext}"`,
and the claim's end-to-end Matrix scenario produces exactly the claimed
folder and filename (with the empty remainder) and moves the file. -/
theorem c5_movie_path :
    (∀ (raw : String) ms (q y rest ext : String) pv evs,
      movieFinish raw ms q y rest ext = (some pv, evs) →
      ∃ m, resolveMovieList ms q y = .resolved m ∧
        pv.raw = raw ∧
        pv.folder = sanitizeFilename (String.mk (repDashSep m.title.data)) ++ " (" ++
          beforeDash m.release_date ++ ") [tmdbid-" ++ natToStr m.id ++ "]" ∧
        pv.clean = sanitizeFilename (String.mk (repDashSep m.title.data)) ++ " (" ++
          beforeDash m.release_date ++ ") [tmdbid-" ++ natToStr m.id ++ "] - " ++
          sanitizeFilename rest ++ "." ++ ext) ∧
    (parseMovieFilename matrixCat "The Matrix (1999).mkv").1 =
      some ⟨"The Matrix (1999).mkv", "The Matrix (1999) [tmdbid-603] - .mkv",
        "The Matrix (1999) [tmdbid-603]"⟩ ∧
    (runMain cfg0 matrixCat (fun _ => false) (fun _ => false)
        ⟨["The Matrix (1999).mkv"], []⟩).performed =
      [.mkdir "/movies/The Matrix (1999) [tmdbid-603]",
       .move "The Matrix (1999).mkv"
         "/movies/The Matrix (1999) [tmdbid-603]/The Matrix (1999) [tmdbid-603] - .mkv"] ∧
    (runMain cfg0 matrixCat (fun _ => false) (fun _ => false)
        ⟨["The Matrix (1999).mkv"], []⟩).world.files = [] := by
  refine ⟨?_, by decide, by decide, by decide⟩
  intro raw ms q y rest ext pv evs h
  unfold movieFinish at h
  split at h
  · rename_i m hres
    simp only [Prod.mk.injEq, Option.some.injEq] at h
    exact ⟨m, hres, by rw [← h.1]; rfl, by rw [← h.1]; rfl, by rw [← h.1]; rfl⟩
  · simp at h
  · simp at h


/-- C5 witness: the path-format statement instantiated at the Matrix
scenario. -/
theorem c5_movie_path_witness :
    ∃ m, resolveMovieList [⟨603, "The Matrix", "1999-03-30", "A computer hacker"⟩]
        "The Matrix" "1999" = .resolved m ∧
      ParsedVideo.raw ⟨"The Matrix (1999).mkv", "The Matrix (1999) [tmdbid-603] - .mkv",
        "The Matrix (1999) [tmdbid-603]"⟩ = "The Matrix (1999).mkv" ∧
      ParsedVideo.folder ⟨"The Matrix (1999).mkv", "The Matrix (1999) [tmdbid-603] - .mkv",
          "The Matrix (1999) [tmdbid-603]"⟩ =
        sanitizeFilename (String.mk (repDashSep m.title.data)) ++ " (" ++
          beforeDash m.release_date ++ ") [tmdbid-" ++ natToStr m.id ++ "]" ∧
      ParsedVideo.clean ⟨"The Matrix (1999).mkv", "The Matrix (1999) [tmdbid-603] - .mkv",
          "The Matrix (1999) [tmdbid-603]"⟩ =
        sanitizeFilename (String.mk (repDashSep m.title.data)) ++ " (" ++
          beforeDash m.release_date ++ ") [tmdbid-" ++ natToStr m.id ++ "] - " ++
          sanitizeFilename "" ++ "." ++ "mkv" :=
  c5_movie_path.1 "The Matrix (1999).mkv"
    [⟨603, "The Matrix", "1999-03-30", "A computer hacker"⟩] "The Matrix" "1999" "" "mkv"
    ⟨"The Matrix (1999).mkv", "The Matrix (1999) [tmdbid-603] - .mkv",
      "The Matrix (1999) [tmdbid-603]"⟩ [] (by decide)

/-! ## C8: dry-run performs no mutation

`Keeps s t` says state `s` agrees with state `t` on everything except the
log trace: same world, same performed operations, same abort status. -/

theorem keeps_refl (s : St) : Keeps s s := ⟨rfl, rfl, rfl⟩

theorem keeps_trans {s t u : St} (h1 : Keeps s t) (h2 : Keeps t u) : Keeps s u :=
  ⟨h1.1.trans h2.1, h1.2.1.trans h2.2.1, h1.2.2.trans h2.2.2⟩

theorem emit_keeps (e : Ev) (st : St) : Keeps (emit e st) st := by
  unfold emit
  split
  · exact keeps_refl st
  · exact ⟨rfl, rfl, rfl⟩

theorem foldl_keeps {α} {step : St → α → St} (h : ∀ st x, Keeps (step st x) st) :
    ∀ (l : List α) (st : St), Keeps (l.foldl step st) st := by
  intro l
  induction l with
  | nil => intro st; exact keeps_refl st
  | cons x xs ih =>
    intro st
    exact keeps_trans (ih (step st x)) (h st x)

theorem emits_keeps (es : List Ev) (st : St) : Keeps (emits es st) st :=
  foldl_keeps (fun st e => emit_keeps e st) es st

theorem perform_dry {cfg : Config} (hd : cfg.dryRun = true) (bad : FsAct → Bool)
    (a : FsAct) (st : St) : perform cfg bad a st = st := by
  unfold perform
  by_cases ha : st.aborted = true
  · rw [if_pos ha]
  · rw [if_neg ha, if_pos hd]

theorem moveVideoToFolder_dry_keeps {cfg : Config} (hd : cfg.dryRun = true)
    (bad : FsAct → Bool) (v : ParsedVideo) (fo : String) (st : St) :
    Keeps (moveVideoToFolder cfg bad v fo st) st := by
  unfold moveVideoToFolder
  rw [perform_dry hd, perform_dry hd]
  exact keeps_trans (emit_keeps _ _) (emit_keeps _ _)

theorem moveSubtitles_dry_keeps {cfg : Config} (hd : cfg.dryRun = true)
    (bad : FsAct → Bool) (v : ParsedVideo) (fo : String) (st : St) :
    Keeps (moveSubtitles cfg bad v fo st) st := by
  unfold moveSubtitles
  apply foldl_keeps
  intro st' file
  dsimp only
  split
  · split
    · split
      · rw [perform_dry hd]
        exact emit_keeps _ _
      · exact keeps_refl _
    · exact keeps_refl _
  · exact keeps_refl _

theorem moveMetaFiles_dry_keeps {cfg : Config} (hd : cfg.dryRun = true)
    (bad : FsAct → Bool) (v : ParsedVideo) (fo : String) (st : St) :
    Keeps (moveMetaFiles cfg bad v fo st) st := by
  unfold moveMetaFiles
  apply foldl_keeps
  intro st' sfx
  dsimp only
  split
  · rw [perform_dry hd]
    exact emit_keeps _ _
  · exact keeps_refl _

theorem processVideoFile_dry_keeps {cfg : Config} (hd : cfg.dryRun = true)
    (bad : FsAct → Bool) (v : ParsedVideo) (st : St) :
    Keeps (processVideoFile cfg bad v st) st := by
  unfold processVideoFile
  exact keeps_trans (moveMetaFiles_dry_keeps hd _ _ _ _)
    (keeps_trans (moveSubtitles_dry_keeps hd _ _ _ _)
      (moveVideoToFolder_dry_keeps hd _ _ _ _))

theorem processEpisodeFile_dry_keeps {cfg : Config} (hd : cfg.dryRun = true)
    (bad : FsAct → Bool) (v : ParsedVideo) (st : St) :
    Keeps (processEpisodeFile cfg bad v st) st := by
  unfold processEpisodeFile
  exact keeps_trans (moveSubtitles_dry_keeps hd _ _ _ _)
    (moveVideoToFolder_dry_keeps hd _ _ _ _)

theorem runItem_dry_keeps {cfg : Config} (hd : cfg.dryRun = true) (cat : Catalog)
    (bad : FsAct → Bool) (f : String) (st : St) :
    Keeps (runItem cfg cat bad f st) st := by
  unfold runItem
  split
  · split
    · exact keeps_trans (emit_keeps _ _)
        (keeps_trans (processEpisodeFile_dry_keeps hd _ _ _)
          (keeps_trans (emits_keeps _ _) (emit_keeps _ _)))
    · exact keeps_trans (emit_keeps _ _)
        (keeps_trans (emit_keeps _ _)
          (keeps_trans (emits_keeps _ _) (emit_keeps _ _)))
  · split
    · exact keeps_trans (emit_keeps _ _)
        (keeps_trans (processVideoFile_dry_keeps hd _ _ _)
          (keeps_trans (emits_keeps _ _) (emit_keeps _ _)))
    · exact keeps_trans (emit_keeps _ _)
        (keeps_trans (emit_keeps _ _)
          (keeps_trans (emits_keeps _ _) (emit_keeps _ _)))

theorem runMain_dry_keeps {cfg : Config} (hd : cfg.dryRun = true) (cat : Catalog)
    (bad : FsAct → Bool) (linked : String → Bool) (w : World) :
    Keeps (runMain cfg cat bad linked w) (St.init w) := by
  unfold runMain
  apply foldl_keeps
  intro st f
  exact runItem_dry_keeps hd cat bad f st

/-- C8.  In dry-run mode the run performs no filesystem mutation at all
(the performed-operation list stays empty), never aborts, and leaves the
world exactly as it was; consequently running the very same run a second
time on the resulting world reproduces the identical state, trace
included. -/
theorem c8_dry_run (cfg : Config) (cat : Catalog) (bad : FsAct → Bool)
    (linked : String → Bool) (w : World) (hd : cfg.dryRun = true) :
    (runMain cfg cat bad linked w).performed = [] ∧
    (runMain cfg cat bad linked w).world = w ∧
    (runMain cfg cat bad linked w).aborted = false ∧
    runMain cfg cat bad linked ((runMain cfg cat bad linked w).world) =
      runMain cfg cat bad linked w := by
  have hk := runMain_dry_keeps hd cat bad linked w
  exact ⟨hk.2.1, hk.1, hk.2.2, by rw [hk.1]; rfl⟩

/-- C8 witness: the dry-run Matrix scenario performs nothing and is
repeatable. -/
theorem c8_dry_run_witness :
    (runMain { cfg0 with dryRun := true } matrixCat (fun _ => false) (fun _ => false)
      ⟨["The Matrix (1999).mkv"], []⟩).performed = [] ∧
    (runMain { cfg0 with dryRun := true } matrixCat (fun _ => false) (fun _ => false)
      ⟨["The Matrix (1999).mkv"], []⟩).world = ⟨["The Matrix (1999).mkv"], []⟩ ∧
    (runMain { cfg0 with dryRun := true } matrixCat (fun _ => false) (fun _ => false)
      ⟨["The Matrix (1999).mkv"], []⟩).aborted = false ∧
    runMain { cfg0 with dryRun := true } matrixCat (fun _ => false) (fun _ => false)
        ((runMain { cfg0 with dryRun := true } matrixCat (fun _ => false) (fun _ => false)
          ⟨["The Matrix (1999).mkv"], []⟩).world) =
      runMain { cfg0 with dryRun := true } matrixCat (fun _ => false) (fun _ => false)
        ⟨["The Matrix (1999).mkv"], []⟩ :=
  c8_dry_run { cfg0 with dryRun := true } matrixCat (fun _ => false) (fun _ => false)
    ⟨["The Matrix (1999).mkv"], []⟩ rfl

/-! ## C7: what a filesystem transfer failure does to the batch -/

theorem perform_never_ab {cfg : Config} {bad : FsAct → Bool}
    (hb : ∀ a, bad a = false) (a : FsAct) (st : St) :
    (perform cfg bad a st).aborted = st.aborted := by
  unfold perform
  by_cases ha : st.aborted = true
  · rw [if_pos ha]
  · rw [if_neg ha]
    by_cases hdd : cfg.dryRun = true
    · rw [if_pos hdd]
    · rw [if_neg hdd, if_neg (by rw [hb a]; exact Bool.false_ne_true)]

theorem emit_ab (e : Ev) (st : St) : (emit e st).aborted = st.aborted := by
  unfold emit
  split <;> rfl

theorem foldl_ab {α} {step : St → α → St} (h : ∀ st x, (step st x).aborted = st.aborted) :
    ∀ (l : List α) (st : St), (l.foldl step st).aborted = st.aborted := by
  intro l
  induction l with
  | nil => intro st; rfl
  | cons x xs ih =>
    intro st
    rw [List.foldl_cons, ih (step st x), h st x]

theorem emits_ab (es : List Ev) (st : St) : (emits es st).aborted = st.aborted :=
  foldl_ab (fun st e => emit_ab e st) es st

theorem moveVideoToFolder_ab {cfg : Config} {bad : FsAct → Bool}
    (hb : ∀ a, bad a = false) (v : ParsedVideo) (fo : String) (st : St) :
    (moveVideoToFolder cfg bad v fo st).aborted = st.aborted := by
  unfold moveVideoToFolder
  rw [perform_never_ab hb, emit_ab, perform_never_ab hb, emit_ab]

theorem moveSubtitles_ab {cfg : Config} {bad : FsAct → Bool}
    (hb : ∀ a, bad a = false) (v : ParsedVideo) (fo : String) (st : St) :
    (moveSubtitles cfg bad v fo st).aborted = st.aborted := by
  unfold moveSubtitles
  apply foldl_ab
  intro st' file
  dsimp only
  split
  · split
    · split
      · rw [perform_never_ab hb, emit_ab]
      · rfl
    · rfl
  · rfl

theorem moveMetaFiles_ab {cfg : Config} {bad : FsAct → Bool}
    (hb : ∀ a, bad a = false) (v : ParsedVideo) (fo : String) (st : St) :
    (moveMetaFiles cfg bad v fo st).aborted = st.aborted := by
  unfold moveMetaFiles
  apply foldl_ab
  intro st' sfx
  dsimp only
  split
  · rw [perform_never_ab hb, emit_ab]
  · rfl

theorem processVideoFile_ab {cfg : Config} {bad : FsAct → Bool}
    (hb : ∀ a, bad a = false) (v : ParsedVideo) (st : St) :
    (processVideoFile cfg bad v st).aborted = st.aborted := by
  unfold processVideoFile
  rw [moveMetaFiles_ab hb, moveSubtitles_ab hb, moveVideoToFolder_ab hb]

theorem processEpisodeFile_ab {cfg : Config} {bad : FsAct → Bool}
    (hb : ∀ a, bad a = false) (v : ParsedVideo) (st : St) :
    (processEpisodeFile cfg bad v st).aborted = st.aborted := by
  unfold processEpisodeFile
  rw [moveSubtitles_ab hb, moveVideoToFolder_ab hb]

theorem runItem_ab {cfg : Config} {bad : FsAct → Bool} (cat : Catalog)
    (hb : ∀ a, bad a = false) (f : String) (st : St) :
    (runItem cfg cat bad f st).aborted = st.aborted := by
  unfold runItem
  split
  · split
    · rw [emit_ab, processEpisodeFile_ab hb, emits_ab, emit_ab]
    · rw [emit_ab, emit_ab, emits_ab, emit_ab]
  · split
    · rw [emit_ab, processVideoFile_ab hb, emits_ab, emit_ab]
    · rw [emit_ab, emit_ab, emits_ab, emit_ab]

theorem runMain_never_ab (cfg : Config) (cat : Catalog) (linked : String → Bool)
    (w : World) :
    (runMain cfg cat (fun _ => false) linked w).aborted = false := by
  unfold runMain
  rw [foldl_ab (fun st f => runItem_ab cat (fun _ => rfl) f st)]
  rfl

/-- C7 counterexample: the source wraps no filesystem call in any
try/catch, so a failing `renameSync` is an uncaught exception: the run
stops (modelled by the `aborted` flag, matching Node's default
unhandled-rejection policy), the failed item is reported by no log line,
and the remaining enumerated item `"Beta (2002).mkv"` is never processed —
contradicting the claim that the batch continues and every remaining item
is still processed.  The final state is computed exactly. -/
theorem c7_transfer_failure_counterexample :
    runMain cfg0 alphaCat badAlpha (fun _ => false)
        ⟨["Alpha (2001).mkv", "Beta (2002).mkv"], []⟩ =
      { world := ⟨["Alpha (2001).mkv", "Beta (2002).mkv"],
          ["/movies/Alpha (2001) [tmdbid-1]"]⟩,
        trace := [.info "Processing: Alpha (2001).mkv",
          .action "Search TMDB: Alpha",
          .reqSearchMovies "Alpha" (some 2001),
          .action "Create folder: /movies/Alpha (2001) [tmdbid-1]",
          .action "Move file to: /movies/Alpha (2001) [tmdbid-1]/Alpha (2001) [tmdbid-1] - .mkv"],
        performed := [.mkdir "/movies/Alpha (2001) [tmdbid-1]"],
        aborted := true } ∧
    ((runMain cfg0 alphaCat badAlpha (fun _ => false)
        ⟨["Alpha (2001).mkv", "Beta (2002).mkv"], []⟩).performed.all fun a =>
      match a with
      | .move s _ => s != "Beta (2002).mkv"
      | _ => true) = true := by
  constructor
  · decide
  · decide

/-- C7 amended: a parse or resolution failure is fatal only for that item
(the batch continues and later items are still placed), and with no
filesystem failure the run never aborts; but a filesystem transfer failure
is not caught anywhere, so it stops the run — the item is not reported
failed and the remaining items are not processed. -/
theorem c7_transfer_failure_amended :
    (∀ (cfg : Config) (cat : Catalog) (linked : String → Bool) (w : World),
      (runMain cfg cat (fun _ => false) linked w).aborted = false) ∧
    ((runMain cfg0 alphaCat (fun _ => false) (fun _ => false)
        ⟨["garbage.mkv", "Beta (2002).mkv"], []⟩).performed.contains
      (.move "Beta (2002).mkv"
        "/movies/Beta (2002) [tmdbid-2]/Beta (2002) [tmdbid-2] - .mkv") = true) ∧
    (runMain cfg0 alphaCat badAlpha (fun _ => false)
      ⟨["Alpha (2001).mkv", "Beta (2002).mkv"], []⟩).aborted = true ∧
    ((runMain cfg0 alphaCat badAlpha (fun _ => false)
        ⟨["Alpha (2001).mkv", "Beta (2002).mkv"], []⟩).performed.all fun a =>
      match a with
      | .mkdir p => p != "/movies/Beta (2002) [tmdbid-2]"
      | .move s _ => s != "Beta (2002).mkv"
      | .link s _ => s != "Beta (2002).mkv") = true :=
  ⟨runMain_never_ab, by decide, by decide, by decide⟩

/-! ## C6: sanitization of destination path components -/

/-- C6 counterexample: the file extension is taken verbatim from the input
filename (`/(\.[^.\s]+)$/` admits `:`) and is never sanitized, so with the
extension allow-list `m:kv` the one-item run passes a destination filename
component containing `:` to the move — the claim that every occurrence of
`:` in every computed component is replaced by `.` is false. -/
theorem c6_sanitization_counterexample :
    (runMain { cfg0 with extensions := ["m:kv"] } cat1999 (fun _ => false) (fun _ => false)
        ⟨["Movie (1999).m:kv"], []⟩).performed =
      [.mkdir "/movies/Movie (1999) [tmdbid-1]",
       .move "Movie (1999).m:kv"
         "/movies/Movie (1999) [tmdbid-1]/Movie (1999) [tmdbid-1] - .m:kv"] ∧
    (parseMovieFilename cat1999 "Movie (1999).m:kv").1 =
      some ⟨"Movie (1999).m:kv", "Movie (1999) [tmdbid-1] - .m:kv",
        "Movie (1999) [tmdbid-1]"⟩ ∧
    noBad "Movie (1999) [tmdbid-1] - .m:kv" = false := by
  refine ⟨by decide, by decide, by decide⟩

theorem toNat_ofNat_valid {n : Nat} (h : n.isValidChar) : (Char.ofNat n).toNat = n := by
  unfold Char.ofNat
  rw [dif_pos h]
  rfl

theorem noBadChar_sanitize (c : Char) : noBadChar (sanitizeChar c) = true := by
  unfold sanitizeChar
  by_cases h1 : (c == '/' || c.toNat == 0) = true
  · rw [if_pos h1]; decide
  · rw [if_neg h1]
    by_cases h2 : (c == ':') = true
    · rw [if_pos h2]; decide
    · rw [if_neg h2]
      simp only [Bool.or_eq_true, beq_iff_eq, not_or] at h1
      simp only [beq_iff_eq] at h2
      unfold noBadChar
      simp only [Bool.or_eq_true, beq_iff_eq, Bool.not_eq_eq_eq_not, Bool.not_true,
        Bool.or_eq_false_iff]
      refine ⟨⟨by simpa using h2, by simpa using h1.1⟩, by simpa using h1.2⟩

theorem noBad_sanitize (s : String) : noBad (sanitizeFilename s) = true := by
  unfold noBad sanitizeFilename
  show (s.data.map sanitizeChar).all noBadChar = true
  rw [List.all_map]
  exact List.all_eq_true.2 fun c _ => noBadChar_sanitize c

theorem noBad_append (a b : String) : noBad (a ++ b) = (noBad a && noBad b) := by
  unfold noBad
  rw [String.data_append, List.all_append]

theorem noBadChar_of_dig {c : Char} (h : isDig c = true) : noBadChar c = true := by
  simp only [isDig, Bool.and_eq_true, decide_eq_true_eq] at h
  unfold noBadChar
  simp only [Bool.or_eq_true, beq_iff_eq, Bool.not_eq_eq_eq_not, Bool.not_true,
    Bool.or_eq_false_iff]
  refine ⟨⟨?_, ?_⟩, ?_⟩
  · simp only [beq_eq_false_iff_ne, ne_eq]
    intro hc
    subst hc
    exact absurd h (by decide)
  · simp only [beq_eq_false_iff_ne, ne_eq]
    intro hc
    subst hc
    exact absurd h (by decide)
  · simp only [beq_eq_false_iff_ne, ne_eq]
    omega

theorem noBad_of_digits {s : String} (h : s.data.all isDig = true) : noBad s = true :=
  List.all_eq_true.2 fun c hc => noBadChar_of_dig (List.all_eq_true.1 h c hc)

theorem natDigitsAux_digits : ∀ f n : Nat, (natDigitsAux f n).all isDig = true := by
  intro f
  induction f with
  | zero => intro n; rfl
  | succ f ih =>
    intro n
    unfold natDigitsAux
    split
    · rename_i h
      have hv : (Char.ofNat (48 + n)).toNat = 48 + n :=
        toNat_ofNat_valid (Or.inl (by omega))
      simp [isDig, hv]
      omega
    · rw [List.all_append, ih (n / 10)]
      have hm : n % 10 < 10 := Nat.mod_lt n (by omega)
      have hv : (Char.ofNat (48 + n % 10)).toNat = 48 + n % 10 :=
        toNat_ofNat_valid (Or.inl (by omega))
      simp [isDig, hv]
      omega

theorem noBad_natToStr (n : Nat) : noBad (natToStr n) = true :=
  noBad_of_digits (natDigitsAux_digits (n + 1) n)

theorem noBad_pad2 (n : Nat) : noBad (pad2 n) = true := by
  have hpad : pad2 n =
      if (natToStr n).length ≥ 2 then natToStr n else "0" ++ natToStr n := rfl
  rw [hpad]
  split
  · exact noBad_natToStr n
  · rw [noBad_append, noBad_natToStr n]
    decide

theorem noBadChar_of_toNat {c : Char} (h1 : c.toNat ≠ 58) (h2 : c.toNat ≠ 47)
    (h3 : c.toNat ≠ 0) : noBadChar c = true := by
  unfold noBadChar
  simp only [Bool.or_eq_true, beq_iff_eq, Bool.not_eq_eq_eq_not, Bool.not_true,
    Bool.or_eq_false_iff]
  refine ⟨⟨?_, ?_⟩, ?_⟩
  · simp only [beq_eq_false_iff_ne, ne_eq]
    intro hc
    subst hc
    exact h1 (by decide)
  · simp only [beq_eq_false_iff_ne, ne_eq]
    intro hc
    subst hc
    exact h2 (by decide)
  · simp only [beq_eq_false_iff_ne, ne_eq]
    exact h3

theorem noBadChar_of_alphaCI {c : Char} (h : isAlphaCI c = true) : noBadChar c = true := by
  simp only [isAlphaCI, Bool.or_eq_true, Bool.and_eq_true, decide_eq_true_eq] at h
  exact noBadChar_of_toNat (by omega) (by omega) (by omega)

theorem noBadChar_lower_word {c : Char} (h : isWordC c = true) :
    noBadChar (toLowerChar c) = true := by
  simp only [isWordC, isDig, Bool.or_eq_true, Bool.and_eq_true, decide_eq_true_eq,
    beq_iff_eq] at h
  have hn : (97 ≤ c.toNat ∧ c.toNat ≤ 122) ∨ (65 ≤ c.toNat ∧ c.toNat ≤ 90) ∨
      (48 ≤ c.toNat ∧ c.toNat ≤ 57) ∨ c.toNat = 95 := by
    rcases h with ((h | h) | h) | h
    · exact Or.inl h
    · exact Or.inr (Or.inl h)
    · exact Or.inr (Or.inr (Or.inl h))
    · subst h; exact Or.inr (Or.inr (Or.inr rfl))
  unfold toLowerChar
  by_cases h1 : 65 ≤ c.toNat ∧ c.toNat ≤ 90
  · rw [if_pos h1]
    have hv := toNat_ofNat_valid (n := c.toNat + 32) (Or.inl (by omega))
    exact noBadChar_of_toNat (by omega) (by omega) (by omega)
  · rw [if_neg h1]
    have h2 : ¬((192 ≤ c.toNat ∧ c.toNat ≤ 222) ∧ c.toNat ≠ 215) := by omega
    rw [if_neg h2]
    exact noBadChar_of_toNat (by omega) (by omega) (by omega)

theorem grabAlpha_shape : ∀ {n : Nat} {l cs r : List Char},
    grabAlpha n l = some (cs, r) → cs.all isAlphaCI = true := by
  intro n
  induction n with
  | zero =>
    intro l cs r h
    unfold grabAlpha at h
    simp only [Option.some.injEq, Prod.mk.injEq] at h
    rw [← h.1]
    rfl
  | succ n ih =>
    intro l cs r h
    cases l with
    | nil => simp [grabAlpha] at h
    | cons c cs' =>
      rw [show grabAlpha (n + 1) (c :: cs') =
          (if isAlphaCI c then (grabAlpha n cs').map fun p => (c :: p.1, p.2)
           else none) from rfl] at h
      split at h
      · rename_i ha
        cases hg : grabAlpha n cs' with
        | none => rw [hg] at h; simp [Option.map] at h
        | some p =>
          rw [hg] at h
          simp only [Option.map, Option.some.injEq, Prod.mk.injEq] at h
          rw [← h.1, List.all_cons, ha,
            @ih cs' p.1 p.2 (by rw [hg])]
          rfl
      · simp at h

theorem finalExt_shape : ∀ {l e : List Char}, finalExt l = some e →
    e.all isWordC = true := by
  intro l e h
  unfold finalExt at h
  split at h
  · split at h
    · rename_i hcond
      simp only [Bool.and_eq_true] at hcond
      simp only [Option.some.injEq] at h
      rw [← h]
      exact hcond.2
    · simp at h
  · simp at h

theorem subAttempt_shape {k1 : Nat} {l : List Char} {lang ext : String}
    (h : subAttempt k1 l = some (lang, ext)) :
    lang.data.all isAlphaCI = true ∧ ext.data.all isWordC = true := by
  unfold subAttempt at h
  split at h
  · rename_i r1
    cases hg : grabAlpha k1 r1 with
    | none => rw [hg] at h; simp at h
    | some p =>
      rw [hg] at h
      simp only at h
      have hlang := @grabAlpha_shape k1 r1 p.1 p.2 (by rw [hg])
      -- h is an orElse chain of the two optional-subgroup widths and the
      -- plain form; each successful branch maps a finalExt result.
      rcases Option.orElse_eq_some .. |>.1 h with h3 | ⟨-, h3⟩
      · revert h3
        cases p.2 with
        | nil => intro h3; simp at h3
        | cons sep r3 =>
          intro h3
          simp only at h3
          split at h3
          · cases hg2 : grabAlpha 3 r3 with
            | none => rw [hg2] at h3; simp at h3
            | some p2 =>
              rw [hg2] at h3
              simp only at h3
              cases hfe : finalExt p2.2 with
              | none => rw [hfe] at h3; simp [Option.map] at h3
              | some e =>
                rw [hfe] at h3
                simp only [Option.map, Option.some.injEq, Prod.mk.injEq] at h3
                refine ⟨?_, ?_⟩
                · rw [← h3.1]; exact hlang
                · rw [← h3.2]; exact finalExt_shape hfe
          · simp at h3
      · rcases Option.orElse_eq_some .. |>.1 h3 with h4 | ⟨-, h4⟩
        · revert h4
          cases p.2 with
          | nil => intro h4; simp at h4
          | cons sep r3 =>
            intro h4
            simp only at h4
            split at h4
            · cases hg2 : grabAlpha 2 r3 with
              | none => rw [hg2] at h4; simp at h4
              | some p2 =>
                rw [hg2] at h4
                simp only at h4
                cases hfe : finalExt p2.2 with
                | none => rw [hfe] at h4; simp [Option.map] at h4
                | some e =>
                  rw [hfe] at h4
                  simp only [Option.map, Option.some.injEq, Prod.mk.injEq] at h4
                  refine ⟨?_, ?_⟩
                  · rw [← h4.1]; exact hlang
                  · rw [← h4.2]; exact finalExt_shape hfe
            · simp at h4
        · cases hfe : finalExt p.2 with
          | none => rw [hfe] at h4; simp [Option.map] at h4
          | some e =>
            rw [hfe] at h4
            simp only [Option.map, Option.some.injEq, Prod.mk.injEq] at h4
            refine ⟨?_, ?_⟩
            · rw [← h4.1]; exact hlang
            · rw [← h4.2]; exact finalExt_shape hfe
  · simp at h

theorem matchSubtitleSuffix_shape {sfx : List Char} {lang ext : String}
    (h : matchSubtitleSuffix sfx = some (lang, ext)) :
    lang.data.all isAlphaCI = true ∧ ext.data.all isWordC = true := by
  unfold matchSubtitleSuffix at h
  rcases Option.orElse_eq_some .. |>.1 h with h1 | ⟨-, h1⟩
  · exact subAttempt_shape h1
  · rcases Option.orElse_eq_some .. |>.1 h1 with h2 | ⟨-, h2⟩
    · exact subAttempt_shape h2
    · cases hfe : finalExt sfx with
      | none => rw [hfe] at h2; simp [Option.map] at h2
      | some e =>
        rw [hfe] at h2
        simp only [Option.map, Option.some.injEq, Prod.mk.injEq] at h2
        refine ⟨by rw [← h2.1]; rfl, by rw [← h2.2]; exact finalExt_shape hfe⟩

/-- C6 amended: sanitization (`:` to `.`, `/` and NUL to `-`) is applied to
the catalog-derived title and name components, the parsed remainder, the
chosen episode title and the metadata sidecar names — but the file
extension and the year strings split from catalog dates are interpolated
verbatim.  Provided those contain none of `:`, `/`, NUL, every computed
destination folder component and filename is free of `:`, `/` and NUL
(the episode folder being exactly its two safe components joined by the
path separator), and subtitle destination names are safe whenever the
primary base name is. -/
theorem c6_sanitization_amended :
    (∀ s, noBad (sanitizeFilename s) = true) ∧
    (∀ (raw : String) (m : Movie) (rest ext : String),
      noBad (beforeDash m.release_date) = true → noBad ext = true →
      noBad (buildMovieVideo raw m rest ext).folder = true ∧
      noBad (buildMovieVideo raw m rest ext).clean = true) ∧
    (∀ (raw : String) (tv : TvShow) (fy ey : String) (sn en : Nat)
      (ct rest ext : String),
      noBad fy = true → noBad ey = true → noBad ext = true →
      (buildEpisodeVideo raw tv fy ey sn en ct rest ext).folder =
        (sanitizeFilename tv.name ++ " (" ++ fy ++ ") [tmdbid-" ++
          natToStr tv.id ++ "]") ++ "/" ++ ("Season " ++ pad2 sn) ∧
      noBad (sanitizeFilename tv.name ++ " (" ++ fy ++ ") [tmdbid-" ++
        natToStr tv.id ++ "]") = true ∧
      noBad ("Season " ++ pad2 sn) = true ∧
      noBad (buildEpisodeVideo raw tv fy ey sn en ct rest ext).clean = true) ∧
    (∀ b sfx, noBad (metaDestName b sfx) = true) ∧
    (∀ (baseClean : String) (sfx : List Char) (lang ext0 : String),
      noBad baseClean = true → matchSubtitleSuffix sfx = some (lang, ext0) →
      noBad (if lang != "" then baseClean ++ "." ++ lang ++ "." ++ jsToLower ext0
        else baseClean ++ "." ++ jsToLower ext0) = true) := by
  refine ⟨noBad_sanitize, ?_, ?_, fun b sfx => noBad_sanitize _, ?_⟩
  · intro raw m rest ext h1 h2
    constructor
    · have hf : (buildMovieVideo raw m rest ext).folder =
          sanitizeFilename (String.mk (repDashSep m.title.data)) ++ " (" ++
          beforeDash m.release_date ++ ") [tmdbid-" ++ natToStr m.id ++ "]" := rfl
      rw [hf]
      simp only [noBad_append, noBad_sanitize, noBad_natToStr, h1, Bool.and_true,
        Bool.true_and]
      decide
    · have hf : (buildMovieVideo raw m rest ext).clean =
          sanitizeFilename (String.mk (repDashSep m.title.data)) ++ " (" ++
          beforeDash m.release_date ++ ") [tmdbid-" ++ natToStr m.id ++ "] - " ++
          sanitizeFilename rest ++ "." ++ ext := rfl
      rw [hf]
      simp only [noBad_append, noBad_sanitize, noBad_natToStr, h1, h2, Bool.and_true,
        Bool.true_and]
      decide
  · intro raw tv fy ey sn en ct rest ext h1 h2 h3
    refine ⟨rfl, ?_, ?_, ?_⟩
    · simp only [noBad_append, noBad_sanitize, noBad_natToStr, h1, Bool.and_true,
        Bool.true_and]
      decide
    · simp only [noBad_append, noBad_pad2, Bool.and_true, Bool.true_and]
      decide
    · have hf : (buildEpisodeVideo raw tv fy ey sn en ct rest ext).clean =
          sanitizeFilename tv.name ++ " (" ++ ey ++ ") S" ++ pad2 sn ++ "E" ++
          pad2 en ++ " " ++ sanitizeFilename ct ++
          sanitizeFilename (if rest != "" then " - " ++ rest else "") ++ "." ++ ext := rfl
      rw [hf]
      simp only [noBad_append, noBad_sanitize, noBad_natToStr, noBad_pad2, h2, h3,
        Bool.and_true, Bool.true_and]
      decide
  · intro baseClean sfx lang ext0 hb hm
    obtain ⟨hl, he⟩ := matchSubtitleSuffix_shape hm
    have hlang : noBad lang = true :=
      List.all_eq_true.2 fun c hc => noBadChar_of_alphaCI (List.all_eq_true.1 hl c hc)
    have hext : noBad (jsToLower ext0) = true := by
      unfold noBad jsToLower
      show (ext0.data.map toLowerChar).all noBadChar = true
      rw [List.all_map]
      exact List.all_eq_true.2 fun c hc => noBadChar_lower_word (List.all_eq_true.1 he c hc)
    split
    · simp only [noBad_append, hb, hlang, hext, Bool.and_true, Bool.true_and]
      decide
    · simp only [noBad_append, hb, hext, Bool.and_true, Bool.true_and]
      decide

/-- C6 amended witness: the folder and filename of the Matrix movie are free of
`:`, `/` and NUL. -/
theorem c6_sanitization_amended_witness :
    noBad (buildMovieVideo "The Matrix (1999).mkv"
      ⟨603, "The Matrix", "1999-03-30", "A computer hacker"⟩ "" "mkv").folder = true ∧
    noBad (buildMovieVideo "The Matrix (1999).mkv"
      ⟨603, "The Matrix", "1999-03-30", "A computer hacker"⟩ "" "mkv").clean = true :=
  c6_sanitization_amended.2.1 "The Matrix (1999).mkv"
    ⟨603, "The Matrix", "1999-03-30", "A computer hacker"⟩ "" "mkv"
    (by decide) (by decide)

/-! ## C4: classification -/

theorem lastOf_cons (prev : Option Char) (c : Char) (pre : List Char) :
    lastOf prev (c :: pre) = lastOf (some c) pre := rfl

/-- A successful scan splits the text at the match position. -/
theorem scanFind_some_split {α} {p : Option Char → List Char → Option α} :
    ∀ {l : List Char} {prev : Option Char} {i j : Nat} {a : α},
      scanFind p prev l i = some (j, a) →
      ∃ pre post, l = pre ++ post ∧ p (lastOf prev pre) post = some a := by
  intro l
  induction l with
  | nil =>
    intro prev i j a h
    unfold scanFind at h
    cases hp : p prev [] with
    | none => rw [hp] at h; simp at h
    | some b =>
      rw [hp] at h
      simp only [Option.map, Option.some.injEq, Prod.mk.injEq] at h
      exact ⟨[], [], rfl, by show p prev [] = some a; rw [hp, h.2]⟩
  | cons c rest ih =>
    intro prev i j a h
    unfold scanFind at h
    cases hp : p prev (c :: rest) with
    | some b =>
      rw [hp] at h
      simp only [Option.some.injEq, Prod.mk.injEq] at h
      exact ⟨[], c :: rest, rfl, by show p prev (c :: rest) = some a; rw [hp, h.2]⟩
    | none =>
      rw [hp] at h
      obtain ⟨pre, post, hsplit, hm⟩ := ih h
      exact ⟨c :: pre, post, by rw [List.cons_append, hsplit],
        by rw [lastOf_cons]; exact hm⟩

/-- A failed scan means the position matcher fails at every split. -/
theorem scanFind_none_split {α} {p : Option Char → List Char → Option α} :
    ∀ {l : List Char} {prev : Option Char} {i : Nat},
      scanFind p prev l i = none →
      ∀ pre post, l = pre ++ post → p (lastOf prev pre) post = none := by
  intro l
  induction l with
  | nil =>
    intro prev i h pre post hsplit
    have hpre : pre = [] := by
      cases pre with
      | nil => rfl
      | cons a t => simp at hsplit
    have hpost : post = [] := by
      subst hpre
      simpa using hsplit.symm
    subst hpre
    subst hpost
    unfold scanFind at h
    cases hp : p prev [] with
    | none => exact hp
    | some b => rw [hp] at h; simp [Option.map] at h
  | cons c rest ih =>
    intro prev i h pre post hsplit
    unfold scanFind at h
    cases hp : p prev (c :: rest) with
    | some b => rw [hp] at h; simp at h
    | none =>
      rw [hp] at h
      cases pre with
      | nil =>
        simp only [List.nil_append] at hsplit
        subst hsplit
        exact hp
      | cons d pre' =>
        simp only [List.cons_append, List.cons.injEq] at hsplit
        obtain ⟨rfl, hsplit'⟩ := hsplit
        rw [lastOf_cons]
        exact ih h pre' post hsplit'

/-- Inversion for `grabDigits`. -/
theorem grabDigits_shape : ∀ {n : Nat} {l ds r : List Char},
    grabDigits n l = some (ds, r) →
    l = ds ++ r ∧ ds.length = n ∧ ds.all isDig = true := by
  intro n
  induction n with
  | zero =>
    intro l ds r h
    unfold grabDigits at h
    simp only [Option.some.injEq, Prod.mk.injEq] at h
    exact ⟨by rw [← h.1, ← h.2]; rfl, by rw [← h.1]; rfl, by rw [← h.1]; rfl⟩
  | succ n ih =>
    intro l ds r h
    cases l with
    | nil => simp [grabDigits] at h
    | cons c cs' =>
      rw [show grabDigits (n + 1) (c :: cs') =
          (if isDig c then (grabDigits n cs').map fun p => (c :: p.1, p.2)
           else none) from rfl] at h
      split at h
      · rename_i hd
        cases hg : grabDigits n cs' with
        | none => rw [hg] at h; simp [Option.map] at h
        | some p =>
          rw [hg] at h
          simp only [Option.map, Option.some.injEq, Prod.mk.injEq] at h
          obtain ⟨hg1, hg2, hg3⟩ := @ih cs' p.1 p.2 (by rw [hg])
          refine ⟨?_, ?_, ?_⟩
          · rw [← h.1, ← h.2, List.cons_append, ← hg1]
          · rw [← h.1, List.length_cons, hg2]
          · rw [← h.1, List.all_cons, hd, hg3]
            rfl
      · simp at h

/-- Construction for `grabDigits`: an all-digit run of the right length is
grabbed whole. -/
theorem grabDigits_mk : ∀ {ds : List Char}, ds.all isDig = true →
    ∀ r : List Char, grabDigits ds.length (ds ++ r) = some (ds, r) := by
  intro ds
  induction ds with
  | nil => intro _ r; rfl
  | cons c cs ih =>
    intro h r
    rw [List.all_cons, Bool.and_eq_true] at h
    rw [show (c :: cs).length = cs.length + 1 from rfl, List.cons_append]
    rw [show grabDigits (cs.length + 1) (c :: (cs ++ r)) =
        (if isDig c then (grabDigits cs.length (cs ++ r)).map fun p => (c :: p.1, p.2)
         else none) from rfl]
    rw [if_pos h.1, ih h.2 r]
    rfl

/-- Inversion for one `NxM` attempt. -/
theorem nxAttempt_some {xT : Char → Bool} {k1 k2 : Nat} {l : List Char}
    {len : Nat} {sd ed : List Char}
    (h : nxAttempt xT k1 k2 l = some (len, sd, ed)) :
    ∃ x post, l = (sd ++ x :: ed) ++ post ∧ xT x = true ∧ afterOk post = true ∧
      sd.length = k1 ∧ ed.length = k2 ∧ sd.all isDig = true ∧ ed.all isDig = true := by
  unfold nxAttempt at h
  cases hg : grabDigits k1 l with
  | none => rw [hg] at h; simp at h
  | some p =>
    obtain ⟨ds1, r1⟩ := p
    rw [hg] at h
    simp only [] at h
    cases r1 with
    | nil => simp at h
    | cons x r2 =>
      simp only [] at h
      split at h
      · rename_i hx
        cases hg2 : grabDigits k2 r2 with
        | none => rw [hg2] at h; simp at h
        | some p2 =>
          obtain ⟨ed1, r3⟩ := p2
          rw [hg2] at h
          simp only [] at h
          split at h
          · rename_i hafter
            simp only [Option.some.injEq, Prod.mk.injEq] at h
            obtain ⟨-, hsd, hed⟩ := h
            subst hsd
            subst hed
            obtain ⟨hl, hlen1, hdig1⟩ := grabDigits_shape hg
            obtain ⟨hr2, hlen2, hdig2⟩ := grabDigits_shape hg2
            refine ⟨x, r3, ?_, hx, hafter, hlen1, hlen2, hdig1, hdig2⟩
            rw [hl, hr2]
            simp [List.append_assoc]
          · simp at h
      · simp at h

/-- Construction for one `NxM` attempt. -/
theorem nxAttempt_mk {xT : Char → Bool} {s e post : List Char} {x : Char}
    (hs : s.all isDig = true) (he : e.all isDig = true) (hx : xT x = true)
    (hp : afterOk post = true) :
    nxAttempt xT s.length e.length (s ++ (x :: (e ++ post))) =
      some (1 + s.length + e.length, s, e) := by
  unfold nxAttempt
  rw [grabDigits_mk hs]
  simp only
  rw [if_pos hx, grabDigits_mk he]
  simp only
  rw [if_pos hp]

theorem isSome_orElse {α} (o : Option α) (f : Unit → Option α) :
    (o.orElse f).isSome = (o.isSome || (f ()).isSome) := by
  cases o <;> simp [Option.orElse]

/-- Inversion for the `NxM` matcher. -/
theorem matchNxAt_some {xT : Char → Bool} {prev : Option Char} {l : List Char}
    {len : Nat} {sd ed : List Char}
    (h : matchNxAt xT prev l = some (len, sd, ed)) :
    bdryOk prev = true ∧ ∃ x post, l = (sd ++ x :: ed) ++ post ∧ xT x = true ∧
      afterOk post = true ∧ 1 ≤ sd.length ∧ sd.length ≤ 2 ∧ 1 ≤ ed.length ∧
      ed.length ≤ 3 ∧ sd.all isDig = true ∧ ed.all isDig = true := by
  unfold matchNxAt at h
  split at h
  · rename_i hb
    refine ⟨hb, ?_⟩
    rcases Option.orElse_eq_some .. |>.1 h with h1 | ⟨-, h1⟩
    · rcases Option.orElse_eq_some .. |>.1 h1 with h2 | ⟨-, h2⟩
      · rcases Option.orElse_eq_some .. |>.1 h2 with h3 | ⟨-, h3⟩
        · obtain ⟨x, post, h4, h5, h6, h7, h8, h9, h10⟩ := nxAttempt_some h3
          exact ⟨x, post, h4, h5, h6, by omega, by omega, by omega, by omega, h9, h10⟩
        · obtain ⟨x, post, h4, h5, h6, h7, h8, h9, h10⟩ := nxAttempt_some h3
          exact ⟨x, post, h4, h5, h6, by omega, by omega, by omega, by omega, h9, h10⟩
      · obtain ⟨x, post, h4, h5, h6, h7, h8, h9, h10⟩ := nxAttempt_some h2
        exact ⟨x, post, h4, h5, h6, by omega, by omega, by omega, by omega, h9, h10⟩
    · rcases Option.orElse_eq_some .. |>.1 h1 with h2 | ⟨-, h2⟩
      · obtain ⟨x, post, h4, h5, h6, h7, h8, h9, h10⟩ := nxAttempt_some h2
        exact ⟨x, post, h4, h5, h6, by omega, by omega, by omega, by omega, h9, h10⟩
      · rcases Option.orElse_eq_some .. |>.1 h2 with h3 | ⟨-, h3⟩
        · obtain ⟨x, post, h4, h5, h6, h7, h8, h9, h10⟩ := nxAttempt_some h3
          exact ⟨x, post, h4, h5, h6, by omega, by omega, by omega, by omega, h9, h10⟩
        · obtain ⟨x, post, h4, h5, h6, h7, h8, h9, h10⟩ := nxAttempt_some h3
          exact ⟨x, post, h4, h5, h6, by omega, by omega, by omega, by omega, h9, h10⟩
  · simp at h

/-- Construction for the `NxM` matcher. -/
theorem matchNxAt_isSome {xT : Char → Bool} {prev : Option Char}
    {s e post : List Char} {x : Char}
    (hb : bdryOk prev = true) (hs1 : 1 ≤ s.length) (hs2 : s.length ≤ 2)
    (he1 : 1 ≤ e.length) (he2 : e.length ≤ 3) (hsd : s.all isDig = true)
    (hed : e.all isDig = true) (hx : xT x = true) (hp : afterOk post = true) :
    (matchNxAt xT prev (s ++ (x :: (e ++ post)))).isSome = true := by
  unfold matchNxAt
  rw [if_pos hb]
  have hatt := nxAttempt_mk hsd hed hx hp
  have hk1 : s.length = 1 ∨ s.length = 2 := by omega
  have hk2 : e.length = 1 ∨ e.length = 2 ∨ e.length = 3 := by omega
  simp only [isSome_orElse]
  rcases hk1 with h1 | h1 <;> rcases hk2 with h2 | h2 | h2 <;>
    rw [h1, h2] at hatt <;> simp [hatt]

/-- Inversion for one `SxxEyy` attempt (after the leading letter). -/
theorem seAttempt_some {eT : Char → Bool} {k1 k2 : Nat} {l : List Char}
    {len : Nat} {sd ed : List Char}
    (h : seAttempt eT k1 k2 l = some (len, sd, ed)) :
    ∃ e post, l = (sd ++ e :: ed) ++ post ∧ eT e = true ∧ afterOk post = true ∧
      sd.length = k1 ∧ ed.length = k2 ∧ sd.all isDig = true ∧ ed.all isDig = true := by
  unfold seAttempt at h
  cases hg : grabDigits k1 l with
  | none => rw [hg] at h; simp at h
  | some p =>
    obtain ⟨ds1, r1⟩ := p
    rw [hg] at h
    simp only [] at h
    cases r1 with
    | nil => simp at h
    | cons e r2 =>
      simp only [] at h
      split at h
      · rename_i he
        cases hg2 : grabDigits k2 r2 with
        | none => rw [hg2] at h; simp at h
        | some p2 =>
          obtain ⟨ed1, r3⟩ := p2
          rw [hg2] at h
          simp only [] at h
          split at h
          · rename_i hafter
            simp only [Option.some.injEq, Prod.mk.injEq] at h
            obtain ⟨-, hsd, hed⟩ := h
            subst hsd
            subst hed
            obtain ⟨hl, hlen1, hdig1⟩ := grabDigits_shape hg
            obtain ⟨hr2, hlen2, hdig2⟩ := grabDigits_shape hg2
            refine ⟨e, r3, ?_, he, hafter, hlen1, hlen2, hdig1, hdig2⟩
            rw [hl, hr2]
            simp [List.append_assoc]
          · simp at h
      · simp at h

/-- Construction for one `SxxEyy` attempt. -/
theorem seAttempt_mk {eT : Char → Bool} {s e post : List Char} {b : Char}
    (hs : s.all isDig = true) (he : e.all isDig = true) (hb : eT b = true)
    (hp : afterOk post = true) :
    seAttempt eT s.length e.length (s ++ (b :: (e ++ post))) =
      some (2 + s.length + e.length, s, e) := by
  unfold seAttempt
  rw [grabDigits_mk hs]
  simp only
  rw [if_pos hb, grabDigits_mk he]
  simp only
  rw [if_pos hp]

/-- Inversion for the `SxxEyy` matcher. -/
theorem matchSEAt_some {sT eT : Char → Bool} {prev : Option Char} {l : List Char}
    {len : Nat} {sd ed : List Char}
    (h : matchSEAt sT eT prev l = some (len, sd, ed)) :
    bdryOk prev = true ∧ ∃ s0 e0 post, l = (s0 :: (sd ++ e0 :: ed)) ++ post ∧
      sT s0 = true ∧ eT e0 = true ∧ afterOk post = true ∧ 1 ≤ sd.length ∧
      sd.length ≤ 2 ∧ 1 ≤ ed.length ∧ ed.length ≤ 3 ∧ sd.all isDig = true ∧
      ed.all isDig = true := by
  unfold matchSEAt at h
  split at h
  · rename_i hbd
    refine ⟨hbd, ?_⟩
    cases l with
    | nil => simp at h
    | cons s0 rest =>
      simp only [] at h
      split at h
      · rename_i hs
        have collect : ∀ {k1 k2 : Nat}, seAttempt eT k1 k2 rest = some (len, sd, ed) →
            1 ≤ k1 → k1 ≤ 2 → 1 ≤ k2 → k2 ≤ 3 →
            ∃ s0' e0 post, s0 :: rest = (s0' :: (sd ++ e0 :: ed)) ++ post ∧
              sT s0' = true ∧ eT e0 = true ∧ afterOk post = true ∧ 1 ≤ sd.length ∧
              sd.length ≤ 2 ∧ 1 ≤ ed.length ∧ ed.length ≤ 3 ∧ sd.all isDig = true ∧
              ed.all isDig = true := by
          intro k1 k2 hat hk1a hk1b hk2a hk2b
          obtain ⟨e0, post, h4, h5, h6, h7, h8, h9, h10⟩ := seAttempt_some hat
          exact ⟨s0, e0, post, by rw [h4]; rfl, hs, h5, h6, by omega, by omega,
            by omega, by omega, h9, h10⟩
        rcases Option.orElse_eq_some .. |>.1 h with h1 | ⟨-, h1⟩
        · rcases Option.orElse_eq_some .. |>.1 h1 with h2 | ⟨-, h2⟩
          · rcases Option.orElse_eq_some .. |>.1 h2 with h3 | ⟨-, h3⟩
            · exact collect h3 (by omega) (by omega) (by omega) (by omega)
            · exact collect h3 (by omega) (by omega) (by omega) (by omega)
          · exact collect h2 (by omega) (by omega) (by omega) (by omega)
        · rcases Option.orElse_eq_some .. |>.1 h1 with h2 | ⟨-, h2⟩
          · exact collect h2 (by omega) (by omega) (by omega) (by omega)
          · rcases Option.orElse_eq_some .. |>.1 h2 with h3 | ⟨-, h3⟩
            · exact collect h3 (by omega) (by omega) (by omega) (by omega)
            · exact collect h3 (by omega) (by omega) (by omega) (by omega)
      · simp at h
  · simp at h

/-- Construction for the `SxxEyy` matcher. -/
theorem matchSEAt_isSome {sT eT : Char → Bool} {prev : Option Char}
    {s e post : List Char} {s0 e0 : Char}
    (hb : bdryOk prev = true) (hs0 : sT s0 = true) (he0 : eT e0 = true)
    (hs1 : 1 ≤ s.length) (hs2 : s.length ≤ 2) (he1 : 1 ≤ e.length)
    (he2 : e.length ≤ 3) (hsd : s.all isDig = true) (hed : e.all isDig = true)
    (hp : afterOk post = true) :
    (matchSEAt sT eT prev (s0 :: (s ++ (e0 :: (e ++ post))))).isSome = true := by
  unfold matchSEAt
  rw [if_pos hb]
  simp only []
  rw [if_pos hs0]
  have hatt := seAttempt_mk hsd hed he0 hp
  have hk1 : s.length = 1 ∨ s.length = 2 := by omega
  have hk2 : e.length = 1 ∨ e.length = 2 ∨ e.length = 3 := by omega
  simp only [isSome_orElse]
  rcases hk1 with h1 | h1 <;> rcases hk2 with h2 | h2 | h2 <;>
    rw [h1, h2] at hatt <;> simp [hatt]

/-- C4.  `isEpisodeFile` returns true exactly when the lowercased,
underscore-to-space text contains a whole-word `NxM` token (1-2 digit
season, 1-3 digit episode) or a whole-word `SxxEyy` token; the claim's two
example filenames classify as Episode and their parses extract
season 1, episode 2, while a plain movie name classifies as Movie. -/
theorem c4_classification :
    (∀ f : String, isEpisodeFile f = true ↔ EpisodeTokenSpec f) ∧
    isEpisodeFile "Show.Name.S01E02.Episode.Title.mkv" = true ∧
    isEpisodeFile "Show Name 1x2 Episode Title.mkv" = true ∧
    isEpisodeFile "The Matrix (1999).mkv" = false ∧
    ((parseEpisodePhaseA [] "Show.Name.S01E02.Episode.Title.mkv").map
      fun p => (p.season, p.episode)) = .ok (1, 2) ∧
    ((parseEpisodePhaseA [] "Show Name 1x2 Episode Title.mkv").map
      fun p => (p.season, p.episode)) = .ok (1, 2) := by
  refine ⟨?_, rfl, rfl, rfl, rfl, rfl⟩
  intro f
  have hdef : isEpisodeFile f =
      ((scanFind (matchNxAt fun c => c == 'x') none (episodeTransform f) 0).isSome ||
       (scanFind (matchSEAt (fun c => c == 's') fun c => c == 'e') none
         (episodeTransform f) 0).isSome) := rfl
  rw [hdef]
  unfold EpisodeTokenSpec
  constructor
  · intro h
    rw [Bool.or_eq_true] at h
    rcases h with h | h
    · left
      rw [Option.isSome_iff_exists] at h
      obtain ⟨⟨j, len, sd, ed⟩, hfind⟩ := h
      obtain ⟨pre, post0, hsplit, hm⟩ := scanFind_some_split hfind
      obtain ⟨hbd, x, post, hdec, hx, hafter, b1, b2, b3, b4, d1, d2⟩ :=
        matchNxAt_some hm
      have hx' : x = 'x' := by simpa using hx
      subst hx'
      exact ⟨sd ++ 'x' :: ed, ⟨sd, ed, rfl, b1, b2, b3, b4, d1, d2⟩, pre, post,
        by rw [hsplit, hdec], hbd, hafter⟩
    · right
      rw [Option.isSome_iff_exists] at h
      obtain ⟨⟨j, len, sd, ed⟩, hfind⟩ := h
      obtain ⟨pre, post0, hsplit, hm⟩ := scanFind_some_split hfind
      obtain ⟨hbd, s0, e0, post, hdec, hs, he, hafter, b1, b2, b3, b4, d1, d2⟩ :=
        matchSEAt_some hm
      have hs' : s0 = 's' := by simpa using hs
      have he' : e0 = 'e' := by simpa using he
      subst hs'
      subst he'
      exact ⟨'s' :: (sd ++ 'e' :: ed), ⟨sd, ed, rfl, b1, b2, b3, b4, d1, d2⟩, pre, post,
        by rw [hsplit, hdec], hbd, hafter⟩
  · intro h
    rw [Bool.or_eq_true]
    rcases h with ⟨tok, ⟨s, e, htok, b1, b2, b3, b4, d1, d2⟩, pre, post, hsplit, hbd, hafter⟩ |
                  ⟨tok, ⟨s, e, htok, b1, b2, b3, b4, d1, d2⟩, pre, post, hsplit, hbd, hafter⟩
    · left
      subst htok
      cases hsc : scanFind (matchNxAt fun c => c == 'x') none (episodeTransform f) 0 with
      | some r => rfl
      | none =>
        exfalso
        have hnone := scanFind_none_split hsc pre ((s ++ 'x' :: e) ++ post) hsplit
        rw [show (s ++ 'x' :: e) ++ post = s ++ ('x' :: (e ++ post)) by
          simp [List.append_assoc]] at hnone
        have hsome := @matchNxAt_isSome (fun c => c == 'x') (lastOf none pre)
          s e post 'x' hbd b1 b2 b3 b4 d1 d2 (by rfl) hafter
        rw [hnone] at hsome
        simp at hsome
    · right
      subst htok
      cases hsc : scanFind (matchSEAt (fun c => c == 's') fun c => c == 'e') none
          (episodeTransform f) 0 with
      | some r => rfl
      | none =>
        exfalso
        have hnone := scanFind_none_split hsc pre (('s' :: (s ++ 'e' :: e)) ++ post) hsplit
        rw [show ('s' :: (s ++ 'e' :: e)) ++ post = 's' :: (s ++ ('e' :: (e ++ post))) by
          simp [List.append_assoc]] at hnone
        have hsome := @matchSEAt_isSome (fun c => c == 's') (fun c => c == 'e')
          (lastOf none pre) s e post 's' 'e' hbd (by rfl) (by rfl) b1 b2 b3 b4 d1 d2 hafter
        rw [hnone] at hsome
        simp at hsome

end Move2Jelly
